import Mathlib

/-!
Verification development for `md2html.py`, a one-shot Markdown-to-HTML blog
post converter.  The Python source is shallowly embedded here: strings are
`List Char`, the filesystem state seen by `os.path.exists` is a finite listing
`List (List Char)`, the local clock is an explicit `PyDate` parameter, and the
optional `dateutil` natural-language parser is an explicit
`List Char → Option PyDate` parameter (absence of the library behaves exactly
like a parser that always fails, because the `try/except` swallows failures).

Characters are modelled at ASCII fidelity: `unicodedata.normalize("NFKD", ·)`
is the identity on the ASCII fragment treated here, the regex classes `\w`,
`\s`, `[A-Za-z]` and `str.lower` are embedded with their ASCII semantics, and
`datetime.strftime("%Y-%m-%d")` is embedded as the zero-padded
4-2-2 digit rendering.
-/

/-! ### Character helpers (CPython regex classes, ASCII fragment) -/

/-- Python `\s` on the ASCII range: space, tab, newline, carriage return,
vertical tab, form feed. -/
def isPySpace (c : Char) : Bool :=
  c = ' ' || c = '\t' || c = '\n' || c = '\r' || c = '\x0b' || c = '\x0c'

/-- Python `\w` on the ASCII range: letters, digits and underscore. -/
def isWordClass (c : Char) : Bool :=
  (65 ≤ c.toNat && c.toNat ≤ 90) || (97 ≤ c.toNat && c.toNat ≤ 122) ||
  (48 ≤ c.toNat && c.toNat ≤ 57) || c = '_'

/-- Regex class `[A-Za-z]`. -/
def isAsciiLetter (c : Char) : Bool :=
  (65 ≤ c.toNat && c.toNat ≤ 90) || (97 ≤ c.toNat && c.toNat ≤ 122)

/-- Regex class `\d`. -/
def isDigitCh (c : Char) : Bool :=
  48 ≤ c.toNat && c.toNat ≤ 57

/-- Numeric value of a digit character. -/
def digitVal (c : Char) : Nat := c.toNat - 48

/-- Character for the last decimal digit of `n` (used to embed zero-padded
`strftime` fields). -/
def digitChar (n : Nat) : Char :=
  match n % 10 with
  | 0 => '0' | 1 => '1' | 2 => '2' | 3 => '3' | 4 => '4'
  | 5 => '5' | 6 => '6' | 7 => '7' | 8 => '8' | _ => '9'

/-- ASCII `str.lower` / `re.IGNORECASE` case folding. -/
def lowerCh (c : Char) : Char :=
  if 65 ≤ c.toNat && c.toNat ≤ 90 then Char.ofNat (c.toNat + 32) else c

/-- Python `str.strip(chars)`: drop characters satisfying `t` from both ends. -/
def pyStripChar (t : Char → Bool) (l : List Char) : List Char :=
  ((l.dropWhile t).reverse.dropWhile t).reverse

/-- Python `str.strip()` (whitespace on both ends). -/
def pyStrip (l : List Char) : List Char := pyStripChar isPySpace l

theorem charEq_of_toNat_eq {c d : Char} (h : c.toNat = d.toNat) : c = d :=
  Char.ext (UInt32.ext h)

theorem toNat_charOfNat {n : Nat} (h : n < 55296) : (Char.ofNat n).toNat = n := by
  unfold Char.ofNat
  rw [dif_pos (Or.inl h)]
  rfl

theorem toNat_lowerCh (c : Char) :
    (lowerCh c).toNat = if 65 ≤ c.toNat ∧ c.toNat ≤ 90 then c.toNat + 32 else c.toNat := by
  unfold lowerCh
  by_cases h : 65 ≤ c.toNat ∧ c.toNat ≤ 90
  · rw [if_pos h, if_pos (by simp [h.1, h.2])]
    exact toNat_charOfNat (by omega)
  · rw [if_neg h, if_neg (by rcases h' : decide (65 ≤ c.toNat) <;> simp_all)]

/-! ### Slugifier (`slugify_for_filename`) -/

def SAFE_TITLE_MAX : Nat := 50

/-- Characters kept by `re.sub(r"[^\w\s-]", "", value)`. -/
def keepSlugChar (c : Char) : Bool := isWordClass c || isPySpace c || c = '-'

/-- Characters collapsed by `re.sub(r"[-\s]+", "-", value)`. -/
def isDashSpace (c : Char) : Bool := isPySpace c || c = '-'

/-- Embedding of `re.sub(r"[-\s]+", "-", value)`: every maximal run of
whitespace/hyphens becomes a single hyphen.  The `inRun` flag records whether
the previous character belonged to a run that already emitted its hyphen. -/
def collapseGo : List Char → Bool → List Char
  | [], _ => []
  | c :: rest, inRun =>
    if isDashSpace c then
      if inRun then collapseGo rest true else '-' :: collapseGo rest true
    else c :: collapseGo rest false

def collapseDashRuns (l : List Char) : List Char := collapseGo l false

/-- Python `value.rstrip("-")`. -/
def rstripDash (l : List Char) : List Char := (l.reverse.dropWhile (· = '-')).reverse

/-- The transformation pipeline of `slugify_for_filename` before the
`or "untitled-post"` fallback: filter the slug alphabet, collapse
whitespace/hyphen runs, strip hyphens at both ends, lowercase, truncate to
50, strip hyphens introduced by truncation. -/
def slugCore (value : List Char) : List Char :=
  rstripDash (((pyStripChar (· = '-') (collapseDashRuns
    (value.filter keepSlugChar))).map lowerCh).take SAFE_TITLE_MAX)

/-- Embedding of `slugify_for_filename` (NFKD is the identity on the ASCII
fragment modelled here). -/
def slugify_for_filename (value : List Char) : List Char :=
  if slugCore value = [] then "untitled-post".toList else slugCore value

/-- Character set claimed by the spec for slug outputs: `[a-z0-9-]`. -/
def claimSlugChar (c : Char) : Bool :=
  (97 ≤ c.toNat && c.toNat ≤ 122) || (48 ≤ c.toNat && c.toNat ≤ 57) || c = '-'

/-- Character set the code actually produces: `[a-z0-9_-]` (underscore is a
`\w` character, so `re.sub(r"[^\w\s-]", ...)` keeps it). -/
def actualSlugChar (c : Char) : Bool := claimSlugChar c || c = '_'

example : slugify_for_filename "Hello, World!".toList = "hello-world".toList := by decide
example : slugify_for_filename [] = "untitled-post".toList := by decide
example : slugify_for_filename "a_b".toList = "a_b".toList := by decide
example : slugify_for_filename "  --  ".toList = "untitled-post".toList := by decide

/-! ### Facts about the slug character classes -/

theorem char_eq_iff_toNat {c d : Char} : c = d ↔ c.toNat = d.toNat :=
  ⟨fun h => h ▸ rfl, fun h => Char.ext (UInt32.ext h)⟩

theorem eq_dash_iff {c : Char} : c = '-' ↔ c.toNat = 45 := char_eq_iff_toNat
theorem eq_us_iff {c : Char} : c = '_' ↔ c.toNat = 95 := char_eq_iff_toNat
theorem eq_space_iff {c : Char} : c = ' ' ↔ c.toNat = 32 := char_eq_iff_toNat
theorem eq_tab_iff {c : Char} : c = '\t' ↔ c.toNat = 9 := char_eq_iff_toNat
theorem eq_nl_iff {c : Char} : c = '\n' ↔ c.toNat = 10 := char_eq_iff_toNat
theorem eq_cr_iff {c : Char} : c = '\r' ↔ c.toNat = 13 := char_eq_iff_toNat
theorem eq_vt_iff {c : Char} : c = '\x0b' ↔ c.toNat = 11 := char_eq_iff_toNat
theorem eq_ff_iff {c : Char} : c = '\x0c' ↔ c.toNat = 12 := char_eq_iff_toNat

theorem actualSlugChar_keep {c : Char} (h : actualSlugChar c = true) :
    keepSlugChar c = true := by
  simp only [actualSlugChar, claimSlugChar, keepSlugChar, isWordClass, isPySpace,
    Bool.or_eq_true, Bool.and_eq_true, decide_eq_true_eq, eq_dash_iff, eq_us_iff,
    eq_space_iff, eq_tab_iff, eq_nl_iff, eq_cr_iff, eq_vt_iff, eq_ff_iff] at *
  omega

theorem actualSlugChar_not_space {c : Char} (h : actualSlugChar c = true) :
    isPySpace c = false := by
  simp only [actualSlugChar, claimSlugChar, isPySpace, Bool.or_eq_true, Bool.and_eq_true,
    decide_eq_true_eq, Bool.eq_false_iff, ne_eq, eq_dash_iff, eq_us_iff,
    eq_space_iff, eq_tab_iff, eq_nl_iff, eq_cr_iff, eq_vt_iff, eq_ff_iff] at *
  omega

theorem actualSlugChar_lower_fix {c : Char} (h : actualSlugChar c = true) :
    lowerCh c = c := by
  have hn : ¬(65 ≤ c.toNat ∧ c.toNat ≤ 90) := by
    simp only [actualSlugChar, claimSlugChar, Bool.or_eq_true, Bool.and_eq_true,
      decide_eq_true_eq, eq_dash_iff, eq_us_iff] at h
    omega
  unfold lowerCh
  rw [if_neg (by rcases h' : decide (65 ≤ c.toNat) <;> simp_all)]

theorem keep_not_dashspace_word {c : Char} (hk : keepSlugChar c = true)
    (hd : isDashSpace c = false) : isWordClass c = true := by
  simp only [keepSlugChar, isDashSpace, isWordClass, isPySpace, Bool.or_eq_true,
    Bool.or_eq_false_iff, decide_eq_true_eq, decide_eq_false_iff_not,
    Bool.and_eq_true, eq_dash_iff, eq_us_iff, eq_space_iff, eq_tab_iff,
    eq_nl_iff, eq_cr_iff, eq_vt_iff, eq_ff_iff] at hk hd ⊢
  omega

theorem lowerCh_word_actual {c : Char} (hw : isWordClass c = true) :
    actualSlugChar (lowerCh c) = true := by
  have ht := toNat_lowerCh c
  simp only [isWordClass, Bool.or_eq_true, Bool.and_eq_true, decide_eq_true_eq,
    eq_us_iff] at hw
  simp only [actualSlugChar, claimSlugChar, Bool.or_eq_true, Bool.and_eq_true,
    decide_eq_true_eq, eq_dash_iff, eq_us_iff]
  by_cases hc : 65 ≤ c.toNat ∧ c.toNat ≤ 90
  · rw [if_pos hc] at ht; omega
  · rw [if_neg hc] at ht; omega

theorem lowerCh_dash_iff {c : Char} : lowerCh c = '-' ↔ c = '-' := by
  have ht := toNat_lowerCh c
  rw [eq_dash_iff, eq_dash_iff]
  by_cases hc : 65 ≤ c.toNat ∧ c.toNat ≤ 90
  · rw [if_pos hc] at ht; omega
  · rw [if_neg hc] at ht; omega

/-! ### The no-double-dash invariant -/

/-- No two adjacent hyphens (what `re.sub(r"[-\s]+", "-", ·)` guarantees). -/
def noDD : List Char → Bool
  | [] => true
  | [_] => true
  | a :: b :: t => !(a = '-' && b = '-') && noDD (b :: t)

theorem noDD_tail {a : Char} {l : List Char} (h : noDD (a :: l) = true) :
    noDD l = true := by
  cases l with
  | nil => rfl
  | cons b t => simp only [noDD, Bool.and_eq_true] at h; exact h.2

theorem noDD_cons_iff {a : Char} {l : List Char} :
    noDD (a :: l) = true ↔
      ((∀ b, l.head? = some b → ¬(a = '-' ∧ b = '-')) ∧ noDD l = true) := by
  cases l with
  | nil => simp [noDD]
  | cons b t =>
    simp only [noDD, Bool.and_eq_true, Bool.not_eq_true', Bool.and_eq_false_iff,
      List.head?_cons, Option.some.injEq]
    constructor
    · rintro ⟨h1, h2⟩
      refine ⟨fun x hx hc => ?_, h2⟩
      subst hx
      rcases h1 with h | h <;> simp [hc.1, hc.2] at h
    · rintro ⟨h1, h2⟩
      refine ⟨?_, h2⟩
      by_cases ha : a = '-'
      · by_cases hb : b = '-'
        · exact absurd ⟨ha, hb⟩ (h1 b rfl)
        · right; simpa using hb
      · left; simpa using ha

theorem noDD_append_right {l₁ l₂ : List Char} (h : noDD (l₁ ++ l₂) = true) :
    noDD l₂ = true := by
  induction l₁ with
  | nil => exact h
  | cons a t ih => exact ih (noDD_tail h)

theorem noDD_append_left {l₁ l₂ : List Char} (h : noDD (l₁ ++ l₂) = true) :
    noDD l₁ = true := by
  induction l₁ with
  | nil => rfl
  | cons a t ih =>
    rw [List.cons_append] at h
    rw [noDD_cons_iff] at h ⊢
    refine ⟨fun b hb => h.1 b ?_, ih h.2⟩
    cases t with
    | nil => simp at hb
    | cons x s => simpa using hb

theorem noDD_map_lowerCh {l : List Char} (h : noDD l = true) :
    noDD (l.map lowerCh) = true := by
  induction l with
  | nil => rfl
  | cons a t ih =>
    rw [List.map_cons, noDD_cons_iff]
    refine ⟨fun b hb hc => ?_, ih (noDD_tail h)⟩
    rw [List.head?_map] at hb
    cases t with
    | nil => simp at hb
    | cons x s =>
      simp only [List.head?_cons, Option.map_some', Option.some.injEq] at hb
      rw [noDD_cons_iff] at h
      exact h.1 x rfl ⟨lowerCh_dash_iff.mp hc.1, lowerCh_dash_iff.mp (hb.trans hc.2)⟩

/-! ### Invariants of the collapse / strip stages -/

theorem collapseGo_chars {l : List Char} {b : Bool} {c : Char}
    (h : c ∈ collapseGo l b) : c = '-' ∨ (c ∈ l ∧ isDashSpace c = false) := by
  induction l generalizing b with
  | nil => simp [collapseGo] at h
  | cons x r ih =>
    by_cases hx : isDashSpace x = true
    · rcases hb : b with _ | _
      · rw [collapseGo, if_pos hx, hb] at h
        simp only [Bool.false_eq_true, if_false, List.mem_cons] at h
        rcases h with h | h
        · exact Or.inl h
        · rcases ih h with h2 | h2
          · exact Or.inl h2
          · exact Or.inr ⟨List.mem_cons_of_mem x h2.1, h2.2⟩
      · rw [collapseGo, if_pos hx, hb, if_pos rfl] at h
        rcases ih h with h2 | h2
        · exact Or.inl h2
        · exact Or.inr ⟨List.mem_cons_of_mem x h2.1, h2.2⟩
    · rw [collapseGo, if_neg hx] at h
      rcases List.mem_cons.mp h with h | h
      · subst h
        exact Or.inr ⟨List.mem_cons_self c r, by simpa using hx⟩
      · rcases ih h with h2 | h2
        · exact Or.inl h2
        · exact Or.inr ⟨List.mem_cons_of_mem x h2.1, h2.2⟩

theorem collapseGo_true_head {l : List Char} {c : Char}
    (h : (collapseGo l true).head? = some c) : isDashSpace c = false := by
  induction l with
  | nil => simp [collapseGo] at h
  | cons x r ih =>
    by_cases hx : isDashSpace x = true
    · rw [collapseGo, if_pos hx, if_pos rfl] at h
      exact ih h
    · rw [collapseGo, if_neg hx] at h
      simp only [List.head?_cons, Option.some.injEq] at h
      subst h
      simpa using hx

theorem collapseGo_noDD (l : List Char) (b : Bool) : noDD (collapseGo l b) = true := by
  induction l generalizing b with
  | nil => rfl
  | cons x r ih =>
    by_cases hx : isDashSpace x = true
    · rcases b with _ | _
      · rw [collapseGo, if_pos hx]
        simp only [Bool.false_eq_true, if_false]
        rw [noDD_cons_iff]
        refine ⟨fun b hb hc => ?_, ih true⟩
        have := collapseGo_true_head hb
        rw [hc.2] at this
        simp [isDashSpace] at this
      · rw [collapseGo, if_pos hx, if_pos rfl]
        exact ih true
    · rw [collapseGo, if_neg hx]
      rw [noDD_cons_iff]
      refine ⟨fun b hb hc => ?_, ih false⟩
      rw [hc.1] at hx
      simp [isDashSpace] at hx

theorem head?_dropWhile_not {p : Char → Bool} {l : List Char} {c : Char}
    (h : (List.dropWhile p l).head? = some c) : p c = false := by
  induction l with
  | nil => simp [List.dropWhile] at h
  | cons x r ih =>
    rw [List.dropWhile_cons] at h
    by_cases hx : p x = true
    · rw [if_pos hx] at h; exact ih h
    · rw [if_neg hx] at h
      simp only [List.head?_cons, Option.some.injEq] at h
      subst h
      simpa using hx

theorem dropWhile_eq_strip_append (p : Char → Bool) (l : List Char) :
    List.dropWhile p l =
      pyStripChar p l ++ ((List.dropWhile p l).reverse.takeWhile p).reverse := by
  unfold pyStripChar
  have h := List.takeWhile_append_dropWhile p (List.dropWhile p l).reverse
  have h2 := congrArg List.reverse h
  rw [List.reverse_append, List.reverse_reverse] at h2
  exact h2.symm

theorem rstripDash_decomp (l : List Char) :
    l = rstripDash l ++ (l.reverse.takeWhile (· = '-')).reverse := by
  unfold rstripDash
  have h := List.takeWhile_append_dropWhile (· = '-') l.reverse
  have h2 := congrArg List.reverse h
  rw [List.reverse_append, List.reverse_reverse] at h2
  exact h2.symm

theorem pyStripChar_head {p : Char → Bool} {l : List Char} {c : Char}
    (h : (pyStripChar p l).head? = some c) : p c = false := by
  have hd := dropWhile_eq_strip_append p l
  have : (List.dropWhile p l).head? = some c := by
    rw [hd, List.head?_append, h]
    rfl
  exact head?_dropWhile_not this

theorem pyStripChar_last {p : Char → Bool} {l : List Char} {c : Char}
    (h : (pyStripChar p l).getLast? = some c) : p c = false := by
  unfold pyStripChar at h
  rw [List.getLast?_reverse] at h
  exact head?_dropWhile_not h

theorem rstripDash_last {l : List Char} {c : Char}
    (h : (rstripDash l).getLast? = some c) : c ≠ '-' := by
  unfold rstripDash at h
  rw [List.getLast?_reverse] at h
  have := head?_dropWhile_not h
  simpa using this

theorem mem_pyStripChar {p : Char → Bool} {l : List Char} {c : Char}
    (h : c ∈ pyStripChar p l) : c ∈ l := by
  unfold pyStripChar at h
  rw [List.mem_reverse] at h
  exact (List.dropWhile_sublist p).mem ((List.mem_reverse).mp
    ((List.dropWhile_sublist p).mem h))

theorem mem_rstripDash {l : List Char} {c : Char} (h : c ∈ rstripDash l) : c ∈ l := by
  unfold rstripDash at h
  rw [List.mem_reverse] at h
  exact (List.mem_reverse).mp ((List.dropWhile_sublist (· = '-')).mem h)

/-! ### The slug shape invariant -/

/-- Shape invariant of non-fallback `slugify_for_filename` outputs: characters
from `[a-z0-9_-]`, no adjacent hyphens, no hyphen at either end, length at
most 50. -/
def goodSlug (l : List Char) : Prop :=
  (∀ c ∈ l, actualSlugChar c = true) ∧ noDD l = true ∧
  (∀ c, l.head? = some c → c ≠ '-') ∧ (∀ c, l.getLast? = some c → c ≠ '-') ∧
  l.length ≤ 50

theorem head?_take_SAFE (l : List Char) : (l.take SAFE_TITLE_MAX).head? = l.head? := by
  cases l <;> rfl

theorem slugCore_goodSlug (v : List Char) : goodSlug (slugCore v) := by
  unfold slugCore
  set l1 := v.filter keepSlugChar with hl1
  set l2 := collapseDashRuns l1 with hl2
  set l3 := pyStripChar (· = '-') l2 with hl3
  set l4 := l3.map lowerCh with hl4
  set l5 := l4.take SAFE_TITLE_MAX with hl5
  have chars4 : ∀ c ∈ l4, actualSlugChar c = true := by
    intro c hc
    rw [hl4, List.mem_map] at hc
    obtain ⟨b, hb, hbc⟩ := hc
    have hb2 : b ∈ l2 := mem_pyStripChar hb
    rcases collapseGo_chars hb2 with h | ⟨hmem, hds⟩
    · subst h
      subst hbc
      decide
    · have hkeep : keepSlugChar b = true := (List.mem_filter.mp hmem).2
      have hw := keep_not_dashspace_word hkeep hds
      exact hbc ▸ lowerCh_word_actual hw
  refine ⟨?_, ?_, ?_, ?_, ?_⟩
  · intro c hc
    exact chars4 c ((List.take_sublist _ _).mem (mem_rstripDash hc))
  · have n2 : noDD l2 = true := collapseGo_noDD l1 false
    have n3 : noDD l3 = true := by
      have hms : List.dropWhile (· = '-') l2 = l3 ++ _ := dropWhile_eq_strip_append (· = '-') l2
      have hdw : noDD (List.dropWhile (· = '-') l2) = true := by
        have := List.takeWhile_append_dropWhile (· = '-') l2
        exact @noDD_append_right (List.takeWhile (· = '-') l2) _ (this.symm ▸ n2)
      exact noDD_append_left (hms ▸ hdw)
    have n4 : noDD l4 = true := noDD_map_lowerCh n3
    have n5 : noDD l5 = true := by
      have := List.take_append_drop SAFE_TITLE_MAX l4
      exact @noDD_append_left _ (l4.drop SAFE_TITLE_MAX) (this.symm ▸ n4)
    have hdec := rstripDash_decomp l5
    exact noDD_append_left (hdec ▸ n5)
  · intro c hc
    have h5 : l5.head? = some c := by
      rw [rstripDash_decomp l5, List.head?_append, hc]
      rfl
    rw [hl5, head?_take_SAFE, hl4, List.head?_map] at h5
    cases h3 : l3.head? with
    | none => rw [h3] at h5; simp at h5
    | some b =>
      rw [h3] at h5
      simp only [Option.map_some', Option.some.injEq] at h5
      have hb := pyStripChar_head h3
      intro hcd
      rw [← h5, lowerCh_dash_iff] at hcd
      rw [hcd] at hb
      simp at hb
  · intro c hc
    exact rstripDash_last hc
  · have : (rstripDash l5).length + ((l5.reverse.takeWhile (· = '-')).reverse).length
        = l5.length := by
      rw [← List.length_append, ← rstripDash_decomp]
    have h5 : l5.length ≤ SAFE_TITLE_MAX := by
      rw [hl5]
      exact List.length_take_le _ _
    have hmax : SAFE_TITLE_MAX = 50 := rfl
    omega

theorem dropWhile_eq_self_of_head {p : Char → Bool} {l : List Char}
    (h : ∀ c, l.head? = some c → p c = false) : List.dropWhile p l = l := by
  cases l with
  | nil => rfl
  | cons x t =>
    rw [List.dropWhile_cons, if_neg (by rw [h x rfl]; simp)]

theorem map_lowerCh_fix {l : List Char} (h : ∀ c ∈ l, actualSlugChar c = true) :
    l.map lowerCh = l := by
  induction l with
  | nil => rfl
  | cons x t ih =>
    rw [List.map_cons, actualSlugChar_lower_fix (h x (List.mem_cons_self x t)),
      ih (fun c hc => h c (List.mem_cons_of_mem x hc))]

theorem collapseGo_fix {l : List Char} {b : Bool}
    (hc : ∀ c ∈ l, actualSlugChar c = true) (hn : noDD l = true)
    (hh : b = true → ∀ c, l.head? = some c → c ≠ '-') : collapseGo l b = l := by
  induction l generalizing b with
  | nil => rfl
  | cons x t ih =>
    have hx := hc x (List.mem_cons_self x t)
    by_cases hd : isDashSpace x = true
    · have hxd : x = '-' := by
        have hs := actualSlugChar_not_space hx
        simp only [isDashSpace, Bool.or_eq_true, decide_eq_true_eq] at hd
        rcases hd with h | h
        · rw [h] at hs; cases hs
        · exact h
      rcases b with _ | _
      · rw [collapseGo, if_pos hd]
        simp only [Bool.false_eq_true, if_false, hxd, List.cons.injEq, true_and]
        apply ih (fun c hcc => hc c (List.mem_cons_of_mem x hcc)) (noDD_tail hn)
        intro _ c hhead hcd
        rw [noDD_cons_iff] at hn
        exact hn.1 c hhead ⟨hxd, hcd⟩
      · exact absurd hxd (hh rfl x rfl)
    · rw [collapseGo, if_neg hd]
      rw [List.cons.injEq]
      refine ⟨rfl, ih (fun c hcc => hc c (List.mem_cons_of_mem x hcc)) (noDD_tail hn) ?_⟩
      intro hfalse
      cases hfalse

theorem slugCore_fix {l : List Char} (h : goodSlug l) : slugCore l = l := by
  obtain ⟨hc, hn, hh, ht, hlen⟩ := h
  unfold slugCore
  have h1 : l.filter keepSlugChar = l :=
    List.filter_eq_self.mpr (fun c hcc => actualSlugChar_keep (hc c hcc))
  rw [show collapseDashRuns (l.filter keepSlugChar) = l by
    rw [h1]; exact collapseGo_fix hc hn (fun _ => hh)]
  have hinner : List.dropWhile (fun x => decide (x = '-')) l = l :=
    dropWhile_eq_self_of_head (fun c hcc => by simpa using hh c hcc)
  have houter : List.dropWhile (fun x => decide (x = '-')) l.reverse = l.reverse :=
    dropWhile_eq_self_of_head (fun c hcc => by
      rw [List.head?_reverse] at hcc
      simpa using ht c hcc)
  have h3 : pyStripChar (· = '-') l = l := by
    unfold pyStripChar
    rw [hinner, houter]
    exact List.reverse_reverse l
  rw [h3, map_lowerCh_fix hc,
    List.take_of_length_le (show l.length ≤ SAFE_TITLE_MAX from hlen)]
  unfold rstripDash
  rw [houter]
  exact List.reverse_reverse l

/-- C8: `slugify` is idempotent: for every title string `x` (characters
modelled at ASCII fidelity), `slugify(slugify(x)) = slugify(x)`. -/
theorem slugify_for_filename_idempotent (x : List Char) :
    slugify_for_filename (slugify_for_filename x) = slugify_for_filename x := by
  by_cases h : slugCore x = []
  · have hx : slugify_for_filename x = "untitled-post".toList := by
      rw [slugify_for_filename, if_pos h]
    rw [hx]
    decide
  · have hx : slugify_for_filename x = slugCore x := by
      rw [slugify_for_filename, if_neg h]
    rw [hx, slugify_for_filename, slugCore_fix (slugCore_goodSlug x), if_neg h]

/-- C3 counterexample: `slugify("a_b")` returns `"a_b"`, which contains the
underscore character, a character outside the claimed set `[a-z0-9-]` (the
Python `\w` class keeps underscores). -/
theorem slugify_charset_counterexample :
    slugify_for_filename "a_b".toList = "a_b".toList ∧
    '_' ∈ slugify_for_filename "a_b".toList ∧ claimSlugChar '_' = false := by
  decide

/-- C3 amended: for every title string, `slugify` returns between 1 and 50
characters, all from `[a-z0-9_-]` (underscore included, since the `\w` class
retains it); `slugify("")` is the literal `"untitled-post"`. -/
theorem slugify_length_and_charset (x : List Char) :
    (1 ≤ (slugify_for_filename x).length ∧ (slugify_for_filename x).length ≤ 50 ∧
      ∀ c ∈ slugify_for_filename x, actualSlugChar c = true) ∧
    slugify_for_filename [] = "untitled-post".toList := by
  refine ⟨?_, by decide⟩
  by_cases h : slugCore x = []
  · rw [slugify_for_filename, if_pos h]
    refine ⟨by decide, by decide, ?_⟩
    decide
  · rw [slugify_for_filename, if_neg h]
    obtain ⟨hc, -, -, -, hlen⟩ := slugCore_goodSlug x
    exact ⟨List.length_pos.mpr h, hlen, hc⟩

/-! ### Dates (`parse_date_to_iso`)

The embedding of CPython `datetime.strptime` follows `_strptime.py`: each
format directive is the regex alternation `_strptime.TimeRE` builds for it,
the whole pattern must consume the entire input, alternatives are tried in
regex order with backtracking, `%I` hours are combined with `%p`, and the
resulting fields are validated exactly as the `datetime` constructor does. -/

/-- A `datetime.date` value as used by the converter (year, month, day). -/
structure PyDate where
  year : Nat
  month : Nat
  day : Nat
deriving DecidableEq, Repr

/-- Length of a month per the proleptic Gregorian calendar (what
`datetime` uses). -/
def daysInMonth (y m : Nat) : Nat :=
  if m = 2 then (if y % 4 = 0 && (y % 100 ≠ 0 || y % 400 = 0) then 29 else 28)
  else if m = 4 || m = 6 || m = 9 || m = 11 then 30 else 31

/-- Validity condition enforced by the `datetime` constructor
(`MINYEAR = 1`, `MAXYEAR = 9999`). -/
def PyDate.Valid (d : PyDate) : Prop :=
  1 ≤ d.year ∧ d.year ≤ 9999 ∧ 1 ≤ d.month ∧ d.month ≤ 12 ∧
  1 ≤ d.day ∧ d.day ≤ daysInMonth d.year d.month

instance (d : PyDate) : Decidable d.Valid := by
  unfold PyDate.Valid
  infer_instance

/-- Embedding of `dt.strftime("%Y-%m-%d")`: zero-padded 4-2-2 rendering. -/
def fmtDate (d : PyDate) : List Char :=
  [digitChar (d.year / 1000), digitChar (d.year / 100), digitChar (d.year / 10),
   digitChar d.year, '-', digitChar (d.month / 10), digitChar d.month, '-',
   digitChar (d.day / 10), digitChar d.day]

/-- Syntactic `YYYY-MM-DD` shape: ten characters, digits in the date
positions, hyphens in positions 4 and 7. -/
def isIsoDateString : List Char → Bool
  | [y1, y2, y3, y4, h1, m1, m2, h2, d1, d2] =>
    isDigitCh y1 && isDigitCh y2 && isDigitCh y3 && isDigitCh y4 &&
    h1 = '-' && isDigitCh m1 && isDigitCh m2 && h2 = '-' &&
    isDigitCh d1 && isDigitCh d2
  | _ => false

/-- Partially filled `struct_time` record built by `_strptime`; the defaults
are CPython's (year 1900, month 1, day 1, midnight). -/
structure TM where
  year : Nat
  mon : Nat
  day : Nat
  hH : Option Nat
  hI : Option Nat
  minute : Nat
  sec : Nat
  ampm : Option Nat
deriving DecidableEq

def initTM : TM := ⟨1900, 1, 1, none, none, 0, 0, none⟩

/-- Hour computed by `_strptime` from `%H`, or from `%I` adjusted by `%p`. -/
def tmHour (tm : TM) : Nat :=
  match tm.hH with
  | some h => h
  | none =>
    match tm.hI with
    | some i =>
      match tm.ampm with
      | some 1 => if i = 12 then i else i + 12
      | _ => if i = 12 then 0 else i
    | none => 0

/-- Validation done by the `datetime(...)` constructor call at the end of
`strptime`; failures there are `ValueError`s caught by the converter. -/
def mkDate (tm : TM) : Option PyDate :=
  if 1 ≤ tm.year ∧ tm.year ≤ 9999 ∧ 1 ≤ tm.mon ∧ tm.mon ≤ 12 ∧
     1 ≤ tm.day ∧ tm.day ≤ daysInMonth tm.year tm.mon ∧
     tmHour tm ≤ 23 ∧ tm.minute ≤ 59 ∧ tm.sec ≤ 59
  then some ⟨tm.year, tm.mon, tm.day⟩ else none

/-- Format directives appearing in the converter's formats; literal
whitespace in a format becomes `ws` (CPython compiles it to `\s+`). -/
inductive Dir where
  | lit (c : Char)
  | ws
  | dY | dm | dd | db | dB | dH | dI | dM | dS | dp
deriving DecidableEq

/-- Regex alternative of exactly two characters. -/
def cand2 (p : Char → Char → Bool) (v : Char → Char → Nat) :
    List Char → List (Nat × List Char)
  | a :: b :: r => if p a b then [(v a b, r)] else []
  | _ => []

/-- Regex alternative of exactly one character. -/
def cand1 (p : Char → Bool) (v : Char → Nat) : List Char → List (Nat × List Char)
  | a :: r => if p a then [(v a, r)] else []
  | _ => []

/-- Character range test, by code point (`inCh 48 50 c` is the regex class
`[0-2]`, `inCh 49 57 c` is `[1-9]`, and so on). -/
def inCh (lo hi : Nat) (c : Char) : Bool := lo ≤ c.toNat && c.toNat ≤ hi

/-- `%Y` ~ `\d\d\d\d`. -/
def candY : List Char → List (Nat × List Char)
  | a :: b :: c :: d :: r =>
    if isDigitCh a && isDigitCh b && isDigitCh c && isDigitCh d then
      [(1000 * digitVal a + 100 * digitVal b + 10 * digitVal c + digitVal d, r)]
    else []
  | _ => []

/-- `%m` ~ `1[0-2]|0[1-9]|[1-9]` (49 is `'1'`, 48 is `'0'`). -/
def candm (s : List Char) : List (Nat × List Char) :=
  cand2 (fun a b => a.toNat = 49 && inCh 48 50 b) (fun _ b => 10 + digitVal b) s ++
  cand2 (fun a b => a.toNat = 48 && inCh 49 57 b) (fun _ b => digitVal b) s ++
  cand1 (inCh 49 57) digitVal s

/-- `%d` ~ `3[01]|[12]\d|0[1-9]|[1-9]` (51 is `'3'`). -/
def candd (s : List Char) : List (Nat × List Char) :=
  cand2 (fun a b => a.toNat = 51 && inCh 48 49 b) (fun _ b => 30 + digitVal b) s ++
  cand2 (fun a b => inCh 49 50 a && isDigitCh b)
    (fun a b => 10 * digitVal a + digitVal b) s ++
  cand2 (fun a b => a.toNat = 48 && inCh 49 57 b) (fun _ b => digitVal b) s ++
  cand1 (inCh 49 57) digitVal s

/-- `%H` ~ `2[0-3]|[0-1]\d|\d` (50 is `'2'`). -/
def candH (s : List Char) : List (Nat × List Char) :=
  cand2 (fun a b => a.toNat = 50 && inCh 48 51 b) (fun _ b => 20 + digitVal b) s ++
  cand2 (fun a b => inCh 48 49 a && isDigitCh b)
    (fun a b => 10 * digitVal a + digitVal b) s ++
  cand1 isDigitCh digitVal s

/-- `%I` ~ `1[0-2]|0[1-9]|[1-9]`. -/
def candI (s : List Char) : List (Nat × List Char) :=
  cand2 (fun a b => a.toNat = 49 && inCh 48 50 b) (fun _ b => 10 + digitVal b) s ++
  cand2 (fun a b => a.toNat = 48 && inCh 49 57 b) (fun _ b => digitVal b) s ++
  cand1 (inCh 49 57) digitVal s

/-- `%M` ~ `[0-5]\d|\d` (53 is `'5'`). -/
def candM (s : List Char) : List (Nat × List Char) :=
  cand2 (fun a b => inCh 48 53 a && isDigitCh b)
    (fun a b => 10 * digitVal a + digitVal b) s ++
  cand1 isDigitCh digitVal s

/-- `%S` ~ `6[0-1]|[0-5]\d|\d` (54 is `'6'`). -/
def candS (s : List Char) : List (Nat × List Char) :=
  cand2 (fun a b => a.toNat = 54 && inCh 48 49 b) (fun _ b => 60 + digitVal b) s ++
  cand2 (fun a b => inCh 48 53 a && isDigitCh b)
    (fun a b => 10 * digitVal a + digitVal b) s ++
  cand1 isDigitCh digitVal s

/-- Case-insensitive prefix match of a (lowercase) name, returning the rest. -/
def matchName (name s : List Char) : Bool :=
  (s.take name.length).map lowerCh = name

/-- Month names recognised by `%b` (locale `C` abbreviations). -/
def monthAbbrs : List (List Char × Nat) :=
  [("jan".toList, 1), ("feb".toList, 2), ("mar".toList, 3), ("apr".toList, 4),
   ("may".toList, 5), ("jun".toList, 6), ("jul".toList, 7), ("aug".toList, 8),
   ("sep".toList, 9), ("oct".toList, 10), ("nov".toList, 11), ("dec".toList, 12)]

/-- Month names recognised by `%B` (locale `C` full names). -/
def monthFulls : List (List Char × Nat) :=
  [("january".toList, 1), ("february".toList, 2), ("march".toList, 3),
   ("april".toList, 4), ("may".toList, 5), ("june".toList, 6),
   ("july".toList, 7), ("august".toList, 8), ("september".toList, 9),
   ("october".toList, 10), ("november".toList, 11), ("december".toList, 12)]

def candMonth (tbl : List (List Char × Nat)) (s : List Char) :
    List (Nat × List Char) :=
  tbl.filterMap (fun nv =>
    if matchName nv.1 s then some (nv.2, s.drop nv.1.length) else none)

/-- `%p` ~ `AM|PM`, case-insensitive; `0` encodes AM and `1` PM. -/
def candp (s : List Char) : List (Nat × List Char) :=
  (if matchName "am".toList s then [(0, s.drop 2)] else []) ++
  (if matchName "pm".toList s then [(1, s.drop 2)] else [])

/-- Try each alternative of a directive in regex order: parse the value,
update the record, and continue with `k`; backtrack on failure. -/
def tryCands (cands : List (Nat × List Char)) (upd : Nat → TM → TM)
    (k : List Char → TM → Option TM) (tm : TM) : Option TM :=
  match cands with
  | [] => none
  | (v, rest) :: more => (k rest (upd v tm)) <|> tryCands more upd k tm

/-- Match a directive list against the input, CPython `_strptime` style: the
regex must consume the whole string (else `unconverted data remains`). -/
def matchDirs : List Dir → List Char → TM → Option TM
  | [], s, tm => if s = [] then some tm else none
  | .lit c :: ds, s, tm =>
    match s with
    | c2 :: r => if lowerCh c2 = lowerCh c then matchDirs ds r tm else none
    | [] => none
  | .ws :: ds, s, tm =>
    match s with
    | c :: r => if isPySpace c then matchDirs ds (r.dropWhile isPySpace) tm else none
    | [] => none
  | .dY :: ds, s, tm =>
    tryCands (candY s) (fun v t => { t with year := v })
      (fun r t => matchDirs ds r t) tm
  | .dm :: ds, s, tm =>
    tryCands (candm s) (fun v t => { t with mon := v })
      (fun r t => matchDirs ds r t) tm
  | .dd :: ds, s, tm =>
    tryCands (candd s) (fun v t => { t with day := v })
      (fun r t => matchDirs ds r t) tm
  | .db :: ds, s, tm =>
    tryCands (candMonth monthAbbrs s) (fun v t => { t with mon := v })
      (fun r t => matchDirs ds r t) tm
  | .dB :: ds, s, tm =>
    tryCands (candMonth monthFulls s) (fun v t => { t with mon := v })
      (fun r t => matchDirs ds r t) tm
  | .dH :: ds, s, tm =>
    tryCands (candH s) (fun v t => { t with hH := some v })
      (fun r t => matchDirs ds r t) tm
  | .dI :: ds, s, tm =>
    tryCands (candI s) (fun v t => { t with hI := some v })
      (fun r t => matchDirs ds r t) tm
  | .dM :: ds, s, tm =>
    tryCands (candM s) (fun v t => { t with minute := v })
      (fun r t => matchDirs ds r t) tm
  | .dS :: ds, s, tm =>
    tryCands (candS s) (fun v t => { t with sec := v })
      (fun r t => matchDirs ds r t) tm
  | .dp :: ds, s, tm =>
    tryCands (candp s) (fun v t => { t with ampm := some v })
      (fun r t => matchDirs ds r t) tm

/-- `datetime.strptime(s, fmt).date()`, as the converter uses it. -/
def pyStrptime (fmt : List Dir) (s : List Char) : Option PyDate :=
  (matchDirs fmt s initTM).bind mkDate

/-- `"%Y-%m-%d"`. -/
def fmtISO : List Dir := [.dY, .lit '-', .dm, .lit '-', .dd]
/-- `"%Y-%m-%d %H:%M:%S"`. -/
def fmtISO_HMS : List Dir :=
  [.dY, .lit '-', .dm, .lit '-', .dd, .ws, .dH, .lit ':', .dM, .lit ':', .dS]
/-- `"%Y-%m-%d %I:%M %p"`. -/
def fmtISO_IMp : List Dir :=
  [.dY, .lit '-', .dm, .lit '-', .dd, .ws, .dI, .lit ':', .dM, .ws, .dp]

/-- The `iso_try_formats` list of `parse_date_to_iso`. -/
def iso_try_formats : List (List Dir) := [fmtISO, fmtISO_HMS, fmtISO_IMp]

/-- `"%b %d, %Y %I:%M %p"`. -/
def fmt_bdY_IMp : List Dir :=
  [.db, .ws, .dd, .lit ',', .ws, .dY, .ws, .dI, .lit ':', .dM, .ws, .dp]
/-- `"%b %d, %Y %H:%M"`. -/
def fmt_bdY_HM : List Dir :=
  [.db, .ws, .dd, .lit ',', .ws, .dY, .ws, .dH, .lit ':', .dM]
/-- `"%b %d, %Y"`. -/
def fmt_bdY : List Dir := [.db, .ws, .dd, .lit ',', .ws, .dY]
/-- `"%B %d, %Y %I:%M %p"`. -/
def fmt_BdY_IMp : List Dir :=
  [.dB, .ws, .dd, .lit ',', .ws, .dY, .ws, .dI, .lit ':', .dM, .ws, .dp]
/-- `"%B %d, %Y"`. -/
def fmt_BdY : List Dir := [.dB, .ws, .dd, .lit ',', .ws, .dY]

/-- The `try_formats` list of `parse_date_to_iso`: note it holds five
patterns; there is no `"%B %d, %Y %H:%M"` entry. -/
def try_formats : List (List Dir) :=
  [fmt_bdY_IMp, fmt_bdY_HM, fmt_bdY, fmt_BdY_IMp, fmt_BdY]

/-- First format in the list that parses, as the `for fmt in ...: try`
loops do. -/
def tryFormats : List (List Dir) → List Char → Option PyDate
  | [], _ => none
  | f :: fs, s =>
    match pyStrptime f s with
    | some d => some d
    | none => tryFormats fs s

example : pyStrptime fmtISO "2012-10-10".toList = some ⟨2012, 10, 10⟩ := by decide
example : pyStrptime fmtISO "2012-13-10".toList = none := by decide
example : pyStrptime fmtISO "2011-02-29".toList = none := by decide
example : pyStrptime fmtISO "2012-02-29".toList = some ⟨2012, 2, 29⟩ := by decide
example : pyStrptime fmtISO "0000-01-01".toList = none := by decide
example : pyStrptime fmtISO "2012-1-3".toList = some ⟨2012, 1, 3⟩ := by decide
example : pyStrptime fmt_bdY_IMp "Oct 10, 2012 06:02 AM".toList
    = some ⟨2012, 10, 10⟩ := by decide
example : pyStrptime fmt_bdY_IMp "Oct 10, 2012 12:02 AM".toList
    = some ⟨2012, 10, 10⟩ := by decide
example : pyStrptime fmt_BdY "October 10, 2012".toList = some ⟨2012, 10, 10⟩ := by decide
example : pyStrptime fmt_bdY "October 10, 2012".toList = none := by decide
example : tryFormats try_formats "October 10, 2012 06:02".toList = none := by decide
example : tryFormats try_formats "Oct 10, 2012 06:02".toList
    = some ⟨2012, 10, 10⟩ := by decide

/-! ### Time-zone suffix stripping and the month-day-year search -/

/-- Python `$` in a non-MULTILINE pattern: a match may end at the very end or
just before one final newline; the result is what remains after the match. -/
def dollarEnd : List Char → Option (List Char)
  | [] => some []
  | ['\n'] => some ['\n']
  | _ => none

/-- `\)?$`, with the greedy optional parenthesis tried first. -/
def optParenEnd (s : List Char) : Option (List Char) :=
  match s with
  | ')' :: t => dollarEnd t <|> dollarEnd (')' :: t)
  | _ => dollarEnd s

/-- Bounded greedy counted repetition: try the largest count first, as the
regex engine backtracks. -/
def tryKdown (f : Nat → Option (List Char)) : Nat → Option (List Char)
  | 0 => none
  | k + 1 => f (k + 1) <|> tryKdown f k

/-- Suffix match of `\s+\(?GMT[+-]?\d{1,4}\)?$` (IGNORECASE).  The `\s+` is
greedy and nothing after it can match whitespace, and `\(? `/`[+-]?` precede
characters they cannot themselves match, so those are deterministic. -/
def pmGMT (s : List Char) : Option (List Char) :=
  match s with
  | c :: r =>
    if isPySpace c then
      let r2 := r.dropWhile isPySpace
      let r3 := if r2.head? = some '(' then r2.drop 1 else r2
      if matchName "gmt".toList r3 then
        let r4 := r3.drop 3
        let r5 := if r4.head? = some '+' || r4.head? = some '-' then r4.drop 1 else r4
        tryKdown (fun k =>
          if (r5.take k).length = k ∧ (r5.take k).all isDigitCh then
            optParenEnd (r5.drop k)
          else none) 4
      else none
    else none
  | [] => none

/-- Suffix match of `\s+\(?UTC\)?$` (IGNORECASE). -/
def pmUTC (s : List Char) : Option (List Char) :=
  match s with
  | c :: r =>
    if isPySpace c then
      let r2 := r.dropWhile isPySpace
      let r3 := if r2.head? = some '(' then r2.drop 1 else r2
      if matchName "utc".toList r3 then optParenEnd (r3.drop 3) else none
    else none
  | [] => none

/-- Suffix match of `\s+\(?[A-Za-z]{1,5}\)?$`. -/
def pmTZ3 (s : List Char) : Option (List Char) :=
  match s with
  | c :: r =>
    if isPySpace c then
      let r2 := r.dropWhile isPySpace
      let r3 := if r2.head? = some '(' then r2.drop 1 else r2
      tryKdown (fun k =>
        if (r3.take k).length = k ∧ (r3.take k).all isAsciiLetter then
          optParenEnd (r3.drop k)
        else none) 5
    else none
  | [] => none

/-- `re.sub(pattern, "", s)` for the end-anchored patterns above: replace the
leftmost (hence only) match with the empty string.  A tail left behind is `[]`
or `["\n"]`, on which none of the three patterns can match again, so a single
replacement is faithful. -/
def subEndGo (pm : List Char → Option (List Char)) : List Char → List Char
  | [] => []
  | c :: r =>
    match pm (c :: r) with
    | some tail => tail
    | none => c :: subEndGo pm r

/-- Day-onwards part of `[A-Za-z]{3,}\s+\d{1,2},\s+\d{4}` with a `\d{1,2}`
width of `k`; returns the matched characters. -/
def mdYTail (k : Nat) (r2 : List Char) : Option (List Char) :=
  if (r2.take k).length = k ∧ (r2.take k).all isDigitCh then
    match r2.drop k with
    | ',' :: r3 =>
      match r3.head? with
      | some c =>
        if isPySpace c then
          let sp2 := r3.takeWhile isPySpace
          let r4 := r3.drop sp2.length
          if (r4.take 4).length = 4 ∧ (r4.take 4).all isDigitCh then
            some (r2.take k ++ ',' :: sp2 ++ r4.take 4)
          else none
        else none
      | none => none
    | _ => none
  else none

/-- Match of `([A-Za-z]{3,}\s+\d{1,2},\s+\d{4})` anchored at the start of
`s`, returning the captured fragment. -/
def matchMDYAt (s : List Char) : Option (List Char) :=
  let letters := s.takeWhile isAsciiLetter
  if letters.length ≥ 3 then
    let r1 := s.drop letters.length
    match r1.head? with
    | some c =>
      if isPySpace c then
        let sp1 := r1.takeWhile isPySpace
        let r2 := r1.drop sp1.length
        match mdYTail 2 r2 <|> mdYTail 1 r2 with
        | some rest => some (letters ++ sp1 ++ rest)
        | none => none
      else none
    | none => none
  else none

/-- `re.search` (leftmost match) for the month-day-year fragment. -/
def searchMDYGo : List Char → Option (List Char)
  | [] => none
  | c :: r => matchMDYAt (c :: r) <|> searchMDYGo r

/-! ### `parse_date_to_iso` -/

/-- Result of `parse_date_to_iso`: the returned string together with the
warning (naming the unrecognised raw string) when the fallback fired. -/
structure ParseResult where
  out : List Char
  warning : Option (List Char)
deriving DecidableEq

/-- `raw_date.strip().strip('"').strip("'")`. -/
def stripQuotes (s : List Char) : List Char :=
  pyStripChar (· = '\'') (pyStripChar (· = '"') (pyStrip s))

/-- The `re.sub` chain of lines 61-63: strip a trailing `GMT±offset`, `UTC`,
or short alphabetic token, each optionally parenthesized, then `strip()`. -/
def stripTZ (raw : List Char) : List Char :=
  pyStrip (subEndGo pmTZ3 (subEndGo pmUTC (subEndGo pmGMT raw)))

/-- The part of `parse_date_to_iso` after the (optional) `dateutil` attempt:
ISO-like formats on `raw`, human-readable formats on the timezone-stripped
string, the embedded month-day-year search, then the warned fallback. -/
def parse_date_fallback (today : PyDate) (raw : List Char) : ParseResult :=
  match tryFormats iso_try_formats raw with
  | some d => ⟨fmtDate d, none⟩
  | none =>
    match tryFormats try_formats (stripTZ raw) with
    | some d => ⟨fmtDate d, none⟩
    | none =>
      match searchMDYGo raw with
      | some frag =>
        match pyStrptime fmt_bdY frag with
        | some d => ⟨fmtDate d, none⟩
        | none => ⟨fmtDate today, some raw⟩
      | none => ⟨fmtDate today, some raw⟩

/-- Embedding of `parse_date_to_iso`.  `nl` is the optional
`dateutil.parser.parse` collaborator (an unavailable library behaves as
`fun _ => none`); `today` is `datetime.now()`'s date at call time. -/
def parse_date_to_iso (nl : List Char → Option PyDate) (today : PyDate)
    (raw_date : Option (List Char)) : ParseResult :=
  match raw_date with
  | none => ⟨fmtDate today, none⟩
  | some s0 =>
    if s0 = [] then ⟨fmtDate today, none⟩
    else
      match nl (stripQuotes s0) with
      | some d => ⟨fmtDate d, none⟩
      | none => parse_date_fallback today (stripQuotes s0)

def noNL : List Char → Option PyDate := fun _ => none

example : parse_date_to_iso noNL ⟨2025, 1, 2⟩ (some "Oct 10, 2012 06:02 AM PDT".toList)
    = ⟨"2012-10-10".toList, none⟩ := by decide
example : parse_date_to_iso noNL ⟨2025, 1, 2⟩ (some "October 10, 2012 06:02".toList)
    = ⟨"2025-01-02".toList, some "October 10, 2012 06:02".toList⟩ := by decide
example : parse_date_to_iso noNL ⟨2025, 1, 2⟩ (some "garbage not a date".toList)
    = ⟨"2025-01-02".toList, some "garbage not a date".toList⟩ := by decide
example : parse_date_to_iso noNL ⟨2025, 1, 2⟩ (some "\"2012-10-10\"".toList)
    = ⟨"2012-10-10".toList, none⟩ := by decide
example : parse_date_to_iso noNL ⟨2025, 1, 2⟩ (some "Oct 10, 2012 06:02 UTC".toList)
    = ⟨"2012-10-10".toList, none⟩ := by decide
example : parse_date_to_iso noNL ⟨2025, 1, 2⟩ (some "Oct 10, 2012 06:02 GMT+0200".toList)
    = ⟨"2012-10-10".toList, none⟩ := by decide
example : parse_date_to_iso noNL ⟨2025, 1, 2⟩ (some "on Oct 9, 2012!!".toList)
    = ⟨"2012-10-09".toList, none⟩ := by decide
example : parse_date_to_iso noNL ⟨2025, 1, 2⟩ (some "on October 9, 2012 x".toList)
    = ⟨"2025-01-02".toList, some "on October 9, 2012 x".toList⟩ := by decide
example : parse_date_to_iso noNL ⟨2025, 1, 2⟩ none = ⟨"2025-01-02".toList, none⟩ := by decide

/-! ### `strptime` round-trip on `%Y-%m-%d` output -/

theorem digitChar_toNat (n : Nat) : (digitChar n).toNat = 48 + n % 10 := by
  have h : n % 10 < 10 := Nat.mod_lt _ (by omega)
  unfold digitChar
  generalize n % 10 = k at h ⊢
  interval_cases k <;> rfl

theorem digitChar_isDigit (n : Nat) : isDigitCh (digitChar n) = true := by
  simp only [isDigitCh, digitChar_toNat, Bool.and_eq_true, decide_eq_true_eq]
  omega

theorem digitVal_digitChar (n : Nat) : digitVal (digitChar n) = n % 10 := by
  simp only [digitVal, digitChar_toNat]
  omega

theorem candY_digits (a b c e : Nat) (r : List Char) :
    candY (digitChar a :: digitChar b :: digitChar c :: digitChar e :: r) =
      [(1000 * (a % 10) + 100 * (b % 10) + 10 * (c % 10) + e % 10, r)] := by
  simp only [candY]
  rw [if_pos (by simp [digitChar_isDigit])]
  simp [digitVal_digitChar]

theorem tryCands_head {v : Nat} {rest : List Char} {more : List (Nat × List Char)}
    {upd : Nat → TM → TM} {k : List Char → TM → Option TM} {tm out : TM}
    (hk : k rest (upd v tm) = some out) :
    tryCands ((v, rest) :: more) upd k tm = some out := by
  unfold tryCands
  rw [hk]
  rfl

theorem matchDirs_dY {y : Nat} {rest : List Char} {ds : List Dir} {tm out : TM}
    (hy : y ≤ 9999)
    (hk : matchDirs ds rest { tm with year := y } = some out) :
    matchDirs (.dY :: ds)
      (digitChar (y / 1000) :: digitChar (y / 100) :: digitChar (y / 10) ::
        digitChar y :: rest) tm = some out := by
  simp only [matchDirs, candY_digits]
  have hv : 1000 * (y / 1000 % 10) + 100 * (y / 100 % 10) + 10 * (y / 10 % 10) +
      y % 10 = y := by omega
  rw [hv]
  exact tryCands_head hk

theorem matchDirs_lit {c : Char} {r : List Char} {ds : List Dir} {tm out : TM}
    (hk : matchDirs ds r tm = some out) :
    matchDirs (.lit c :: ds) (c :: r) tm = some out := by
  simp only [matchDirs, if_pos rfl]
  exact hk

theorem candm_head {m : Nat} {rest : List Char} (h1 : 1 ≤ m) (h2 : m ≤ 12) :
    ∃ more, candm (digitChar (m / 10) :: digitChar m :: rest) = (m, rest) :: more := by
  by_cases hm : m ≤ 9
  · refine ⟨[], ?_⟩
    have c1 : ((digitChar (m / 10)).toNat = 49 && inCh 48 50 (digitChar m)) = false := by
      apply Bool.eq_false_iff.mpr
      intro hcc
      simp only [inCh, digitChar_toNat, Bool.and_eq_true, decide_eq_true_eq] at hcc
      omega
    have c2 : ((digitChar (m / 10)).toNat = 48 && inCh 49 57 (digitChar m)) = true := by
      simp only [inCh, digitChar_toNat, Bool.and_eq_true, decide_eq_true_eq]
      omega
    have c3 : inCh 49 57 (digitChar (m / 10)) = false := by
      apply Bool.eq_false_iff.mpr
      intro hcc
      simp only [inCh, digitChar_toNat, Bool.and_eq_true, decide_eq_true_eq] at hcc
      omega
    simp only [candm, cand2, cand1, c1, c2, c3, if_true, if_false,
      Bool.false_eq_true, List.nil_append, List.append_nil, digitVal_digitChar]
    rw [Nat.mod_eq_of_lt (by omega)]
  · refine ⟨[(m / 10 % 10, digitChar m :: rest)], ?_⟩
    have c1 : ((digitChar (m / 10)).toNat = 49 && inCh 48 50 (digitChar m)) = true := by
      simp only [inCh, digitChar_toNat, Bool.and_eq_true, decide_eq_true_eq]
      omega
    have c2 : ((digitChar (m / 10)).toNat = 48 && inCh 49 57 (digitChar m)) = false := by
      apply Bool.eq_false_iff.mpr
      intro hcc
      simp only [inCh, digitChar_toNat, Bool.and_eq_true, decide_eq_true_eq] at hcc
      omega
    have c3 : inCh 49 57 (digitChar (m / 10)) = true := by
      simp only [inCh, digitChar_toNat, Bool.and_eq_true, decide_eq_true_eq]
      omega
    simp only [candm, cand2, cand1, c1, c2, c3, if_true, if_false,
      Bool.false_eq_true, List.nil_append, List.append_nil, digitVal_digitChar,
      List.cons_append, List.cons.injEq, Prod.mk.injEq]
    refine ⟨⟨by omega, trivial⟩, trivial⟩

theorem matchDirs_dm {m : Nat} {rest : List Char} {ds : List Dir} {tm out : TM}
    (h1 : 1 ≤ m) (h2 : m ≤ 12)
    (hk : matchDirs ds rest { tm with mon := m } = some out) :
    matchDirs (.dm :: ds) (digitChar (m / 10) :: digitChar m :: rest) tm = some out := by
  obtain ⟨more, hme⟩ := @candm_head m rest h1 h2
  simp only [matchDirs, hme]
  exact tryCands_head hk

theorem candd_head {d : Nat} {rest : List Char} (h1 : 1 ≤ d) (h2 : d ≤ 31) :
    ∃ more, candd (digitChar (d / 10) :: digitChar d :: rest) = (d, rest) :: more := by
  have ha := digitChar_toNat (d / 10)
  have hb := digitChar_toNat d
  by_cases hd9 : d ≤ 9
  · refine ⟨[], ?_⟩
    have c1 : ((digitChar (d / 10)).toNat = 51 && inCh 48 49 (digitChar d)) = false := by
      apply Bool.eq_false_iff.mpr
      intro hcc
      simp only [inCh, digitChar_toNat, Bool.and_eq_true, decide_eq_true_eq] at hcc
      omega
    have c2 : (inCh 49 50 (digitChar (d / 10)) && isDigitCh (digitChar d)) = false := by
      apply Bool.eq_false_iff.mpr
      intro hcc
      simp only [inCh, isDigitCh, digitChar_toNat, Bool.and_eq_true,
        decide_eq_true_eq] at hcc
      omega
    have c3 : ((digitChar (d / 10)).toNat = 48 && inCh 49 57 (digitChar d)) = true := by
      simp only [inCh, digitChar_toNat, Bool.and_eq_true, decide_eq_true_eq]
      omega
    have c4 : inCh 49 57 (digitChar (d / 10)) = false := by
      apply Bool.eq_false_iff.mpr
      intro hcc
      simp only [inCh, digitChar_toNat, Bool.and_eq_true, decide_eq_true_eq] at hcc
      omega
    simp only [candd, cand2, cand1, c1, c2, c3, c4, if_true, if_false,
      Bool.false_eq_true, List.nil_append, List.append_nil, digitVal_digitChar]
    rw [Nat.mod_eq_of_lt (by omega)]
  · by_cases hd29 : d ≤ 29
    · refine ⟨[(d / 10 % 10, digitChar d :: rest)], ?_⟩
      have c1 : ((digitChar (d / 10)).toNat = 51 && inCh 48 49 (digitChar d)) = false := by
        apply Bool.eq_false_iff.mpr
        intro hcc
        simp only [inCh, digitChar_toNat, Bool.and_eq_true, decide_eq_true_eq] at hcc
        omega
      have c2 : (inCh 49 50 (digitChar (d / 10)) && isDigitCh (digitChar d)) = true := by
        simp only [inCh, isDigitCh, digitChar_toNat, Bool.and_eq_true, decide_eq_true_eq]
        omega
      have c3 : ((digitChar (d / 10)).toNat = 48 && inCh 49 57 (digitChar d)) = false := by
        apply Bool.eq_false_iff.mpr
        intro hcc
        simp only [inCh, digitChar_toNat, Bool.and_eq_true, decide_eq_true_eq] at hcc
        omega
      have c4 : inCh 49 57 (digitChar (d / 10)) = true := by
        simp only [inCh, digitChar_toNat, Bool.and_eq_true, decide_eq_true_eq]
        omega
      simp only [candd, cand2, cand1, c1, c2, c3, c4, if_true, if_false,
        Bool.false_eq_true, List.nil_append, List.append_nil, digitVal_digitChar,
        List.cons_append, List.cons.injEq, Prod.mk.injEq]
      refine ⟨⟨by omega, trivial⟩, trivial⟩
    · refine ⟨[(d / 10 % 10, digitChar d :: rest)], ?_⟩
      have c1 : ((digitChar (d / 10)).toNat = 51 && inCh 48 49 (digitChar d)) = true := by
        simp only [inCh, digitChar_toNat, Bool.and_eq_true, decide_eq_true_eq]
        omega
      have c2 : (inCh 49 50 (digitChar (d / 10)) && isDigitCh (digitChar d)) = false := by
        apply Bool.eq_false_iff.mpr
        intro hcc
        simp only [inCh, isDigitCh, digitChar_toNat, Bool.and_eq_true,
          decide_eq_true_eq] at hcc
        omega
      have c3 : ((digitChar (d / 10)).toNat = 48 && inCh 49 57 (digitChar d)) = false := by
        apply Bool.eq_false_iff.mpr
        intro hcc
        simp only [inCh, digitChar_toNat, Bool.and_eq_true, decide_eq_true_eq] at hcc
        omega
      have c4 : inCh 49 57 (digitChar (d / 10)) = true := by
        simp only [inCh, digitChar_toNat, Bool.and_eq_true, decide_eq_true_eq]
        omega
      simp only [candd, cand2, cand1, c1, c2, c3, c4, if_true, if_false,
        Bool.false_eq_true, List.nil_append, List.append_nil, digitVal_digitChar,
        List.cons_append, List.cons.injEq, Prod.mk.injEq]
      refine ⟨⟨by omega, trivial⟩, trivial⟩

theorem matchDirs_dd {d : Nat} {rest : List Char} {ds : List Dir} {tm out : TM}
    (h1 : 1 ≤ d) (h2 : d ≤ 31)
    (hk : matchDirs ds rest { tm with day := d } = some out) :
    matchDirs (.dd :: ds) (digitChar (d / 10) :: digitChar d :: rest) tm = some out := by
  obtain ⟨more, hme⟩ := @candd_head d rest h1 h2
  simp only [matchDirs, hme]
  exact tryCands_head hk

theorem daysInMonth_le (y m : Nat) : daysInMonth y m ≤ 31 := by
  unfold daysInMonth
  split_ifs <;> omega

theorem strptime_fmtISO_roundtrip {d : PyDate} (h : d.Valid) :
    pyStrptime fmtISO (fmtDate d) = some d := by
  obtain ⟨h1, h2, h3, h4, h5, h6⟩ := h
  have hmatch : matchDirs fmtISO (fmtDate d) initTM =
      some ⟨d.year, d.month, d.day, none, none, 0, 0, none⟩ := by
    apply matchDirs_dY h2
    apply matchDirs_lit
    apply matchDirs_dm h3 h4
    apply matchDirs_lit
    apply matchDirs_dd h5 (le_trans h6 (daysInMonth_le d.year d.month))
    rfl
  unfold pyStrptime
  rw [hmatch]
  show mkDate _ = some d
  unfold mkDate
  have hhour : tmHour ⟨d.year, d.month, d.day, none, none, 0, 0, none⟩ = 0 := rfl
  rw [hhour, if_pos ⟨h1, h2, h3, h4, h5, h6, by omega,
    by show (0 : Nat) ≤ 59; omega, by show (0 : Nat) ≤ 59; omega⟩]

/-! ### Claims C4, C5, C6 -/

theorem eq_dq_iff {c : Char} : c = '"' ↔ c.toNat = 34 := char_eq_iff_toNat
theorem eq_sq_iff {c : Char} : c = '\'' ↔ c.toNat = 39 := char_eq_iff_toNat

theorem pyStripChar_eq_self {p : Char → Bool} {l : List Char}
    (hh : ∀ c, l.head? = some c → p c = false)
    (hl : ∀ c, l.getLast? = some c → p c = false) : pyStripChar p l = l := by
  unfold pyStripChar
  rw [dropWhile_eq_self_of_head hh]
  rw [dropWhile_eq_self_of_head (fun c hc => hl c (by rwa [List.head?_reverse] at hc))]
  exact List.reverse_reverse l

theorem digitChar_not_space (n : Nat) : isPySpace (digitChar n) = false := by
  apply Bool.eq_false_iff.mpr
  intro h
  simp only [isPySpace, Bool.or_eq_true, decide_eq_true_eq, eq_space_iff, eq_tab_iff,
    eq_nl_iff, eq_cr_iff, eq_vt_iff, eq_ff_iff, digitChar_toNat] at h
  omega

theorem digitChar_ne_dq (n : Nat) : (decide (digitChar n = '"')) = false := by
  apply decide_eq_false
  rw [eq_dq_iff, digitChar_toNat]
  omega

theorem digitChar_ne_sq (n : Nat) : (decide (digitChar n = '\'')) = false := by
  apply decide_eq_false
  rw [eq_sq_iff, digitChar_toNat]
  omega

theorem fmtDate_head (d : PyDate) :
    (fmtDate d).head? = some (digitChar (d.year / 1000)) := rfl

theorem fmtDate_last (d : PyDate) : (fmtDate d).getLast? = some (digitChar d.day) := by
  simp [fmtDate]

theorem stripQuotes_fmtDate (d : PyDate) : stripQuotes (fmtDate d) = fmtDate d := by
  have h1 : pyStripChar isPySpace (fmtDate d) = fmtDate d :=
    pyStripChar_eq_self
      (fun c hc => by rw [fmtDate_head] at hc; cases hc; exact digitChar_not_space _)
      (fun c hc => by rw [fmtDate_last] at hc; cases hc; exact digitChar_not_space _)
  have h2 : pyStripChar (· = '"') (fmtDate d) = fmtDate d :=
    pyStripChar_eq_self
      (fun c hc => by rw [fmtDate_head] at hc; cases hc; exact digitChar_ne_dq _)
      (fun c hc => by rw [fmtDate_last] at hc; cases hc; exact digitChar_ne_dq _)
  have h3 : pyStripChar (· = '\'') (fmtDate d) = fmtDate d :=
    pyStripChar_eq_self
      (fun c hc => by rw [fmtDate_head] at hc; cases hc; exact digitChar_ne_sq _)
      (fun c hc => by rw [fmtDate_last] at hc; cases hc; exact digitChar_ne_sq _)
  unfold stripQuotes pyStrip
  rw [h1, h2, h3]

theorem parse_some_of_nl_none {nl : List Char → Option PyDate} {today : PyDate}
    {s0 : List Char} (hne : s0 ≠ []) (h : nl (stripQuotes s0) = none) :
    parse_date_to_iso nl today (some s0) =
      parse_date_fallback today (stripQuotes s0) := by
  simp only [parse_date_to_iso, if_neg hne, h]

theorem parse_some_of_nl_some {nl : List Char → Option PyDate} {today : PyDate}
    {s0 : List Char} {d : PyDate} (hne : s0 ≠ []) (h : nl (stripQuotes s0) = some d) :
    parse_date_to_iso nl today (some s0) = ⟨fmtDate d, none⟩ := by
  simp only [parse_date_to_iso, if_neg hne, h]

/-- C4: `normalize` is the identity on valid `YYYY-MM-DD` calendar dates.  A
valid calendar date in `YYYY-MM-DD` format is exactly `fmtDate d` for a valid
`PyDate d`; the hypothesis on `nl` says the optional natural-language parser,
when it is consulted and succeeds, reads the ISO date correctly (with the
parser absent, `nl = fun _ => none` satisfies it). -/
theorem parse_date_to_iso_identity (nl : List Char → Option PyDate)
    (today d : PyDate) (hd : d.Valid)
    (hnl : nl (fmtDate d) = none ∨ nl (fmtDate d) = some d) :
    parse_date_to_iso nl today (some (fmtDate d)) = ⟨fmtDate d, none⟩ := by
  have hne : fmtDate d ≠ [] := by simp [fmtDate]
  have hsq := stripQuotes_fmtDate d
  have hiso : tryFormats iso_try_formats (fmtDate d) = some d := by
    show tryFormats (fmtISO :: [fmtISO_HMS, fmtISO_IMp]) (fmtDate d) = some d
    simp only [tryFormats, strptime_fmtISO_roundtrip hd]
  rcases hnl with h | h
  · rw [parse_some_of_nl_none hne (by rw [hsq]; exact h), hsq]
    simp only [parse_date_fallback, hiso]
  · exact parse_some_of_nl_some hne (by rw [hsq]; exact h)

/-- C4 witness at the concrete date 2012-10-10 with the parser absent. -/
theorem parse_date_to_iso_identity_witness :
    parse_date_to_iso noNL ⟨2025, 1, 2⟩ (some (fmtDate ⟨2012, 10, 10⟩)) =
      ⟨fmtDate ⟨2012, 10, 10⟩, none⟩ :=
  parse_date_to_iso_identity noNL ⟨2025, 1, 2⟩ ⟨2012, 10, 10⟩ (by decide)
    (Or.inl rfl)

/-- C5: `normalize("Oct 10, 2012 06:02 AM PDT")` is `"2012-10-10"`: the
trailing short alphabetic timezone token is stripped and the remainder parses
under `"%b %d, %Y %I:%M %p"` (with the natural-language parser, when present,
assumed to agree on this input or fail). -/
theorem parse_date_to_iso_pdt_example (nl : List Char → Option PyDate)
    (today : PyDate)
    (hnl : nl "Oct 10, 2012 06:02 AM PDT".toList = none ∨
      nl "Oct 10, 2012 06:02 AM PDT".toList = some ⟨2012, 10, 10⟩) :
    (parse_date_to_iso nl today (some "Oct 10, 2012 06:02 AM PDT".toList)).out =
      "2012-10-10".toList := by
  have hne : "Oct 10, 2012 06:02 AM PDT".toList ≠ [] := by decide
  have hsq : stripQuotes "Oct 10, 2012 06:02 AM PDT".toList =
      "Oct 10, 2012 06:02 AM PDT".toList := by decide
  rcases hnl with h | h
  · rw [parse_some_of_nl_none hne (by rw [hsq]; exact h), hsq]
    rfl
  · rw [parse_some_of_nl_some hne (by rw [hsq]; exact h)]
    rfl

/-- C5 witness with the parser absent. -/
theorem parse_date_to_iso_pdt_example_witness :
    (parse_date_to_iso noNL ⟨2025, 1, 2⟩
      (some "Oct 10, 2012 06:02 AM PDT".toList)).out = "2012-10-10".toList :=
  parse_date_to_iso_pdt_example noNL ⟨2025, 1, 2⟩ (Or.inl rfl)

/-- C6 counterexample: with the natural-language parser unavailable,
`normalize("October 10, 2012 06:02")` does not normalize to its date
component `"2012-10-10"`; it falls through to the today's-date fallback
(shown at the concrete clock date 2025-01-02), because `try_formats` holds no
`"%B %d, %Y %H:%M"` pattern. -/
theorem parse_full_month_24h_counterexample :
    parse_date_to_iso noNL ⟨2025, 1, 2⟩ (some "October 10, 2012 06:02".toList) =
      ⟨"2025-01-02".toList, some "October 10, 2012 06:02".toList⟩ ∧
    "2025-01-02".toList ≠ "2012-10-10".toList := by
  constructor
  · decide
  · decide

/-- C6 amended: step 6 tries exactly five patterns: the three abbreviated-month
patterns (`%b %d, %Y %I:%M %p`; `%b %d, %Y %H:%M`; `%b %d, %Y`) but only two
full-month ones (`%B %d, %Y %I:%M %p`; `%B %d, %Y`) - there is no full-month
24-hour pattern.  Hence with the natural-language parser unavailable the
abbreviated `"Oct 10, 2012 06:02"` normalizes to `"2012-10-10"` while
`"October 10, 2012 06:02"` falls through to the today's-date fallback with a
warning naming it. -/
theorem parse_full_month_24h_falls_through (today : PyDate) :
    try_formats = [fmt_bdY_IMp, fmt_bdY_HM, fmt_bdY, fmt_BdY_IMp, fmt_BdY] ∧
    (parse_date_to_iso noNL today (some "Oct 10, 2012 06:02".toList)).out =
      "2012-10-10".toList ∧
    parse_date_to_iso noNL today (some "October 10, 2012 06:02".toList) =
      ⟨fmtDate today, some "October 10, 2012 06:02".toList⟩ := by
  refine ⟨rfl, rfl, rfl⟩

/-! ### Claim C1 -/

theorem isIso_fmtDate (d : PyDate) : isIsoDateString (fmtDate d) = true := by
  simp [isIsoDateString, fmtDate, digitChar_isDigit]

theorem parse_date_fallback_shape (today : PyDate) (raw : List Char) :
    (∃ d, parse_date_fallback today raw = ⟨fmtDate d, none⟩) ∨
    parse_date_fallback today raw = ⟨fmtDate today, some raw⟩ := by
  unfold parse_date_fallback
  split
  · exact Or.inl ⟨_, rfl⟩
  · split
    · exact Or.inl ⟨_, rfl⟩
    · split
      · split
        · exact Or.inl ⟨_, rfl⟩
        · exact Or.inr rfl
      · exact Or.inr rfl

/-- C1: `normalize` never fails: for every input (absent, empty, or any
string) the result is a syntactically valid `YYYY-MM-DD` string; absent or
empty input yields today's date with no warning; whenever the warning fires
(naming the stripped raw string) the result is today's date. -/
theorem parse_date_to_iso_never_fails (nl : List Char → Option PyDate)
    (today : PyDate) (raw_date : Option (List Char)) :
    isIsoDateString (parse_date_to_iso nl today raw_date).out = true ∧
    ((raw_date = none ∨ raw_date = some []) →
      parse_date_to_iso nl today raw_date = ⟨fmtDate today, none⟩) ∧
    (∀ w, (parse_date_to_iso nl today raw_date).warning = some w →
      (parse_date_to_iso nl today raw_date).out = fmtDate today ∧
      ∃ s, raw_date = some s ∧ w = stripQuotes s) := by
  have hmaster : (∃ d, parse_date_to_iso nl today raw_date = ⟨fmtDate d, none⟩) ∨
      (∃ s0, raw_date = some s0 ∧ s0 ≠ [] ∧
        parse_date_to_iso nl today raw_date = ⟨fmtDate today, some (stripQuotes s0)⟩) := by
    rcases raw_date with _ | s0
    · exact Or.inl ⟨today, rfl⟩
    · by_cases hs : s0 = []
      · subst hs
        exact Or.inl ⟨today, by simp [parse_date_to_iso]⟩
      · cases hnl2 : nl (stripQuotes s0) with
        | some d => exact Or.inl ⟨d, parse_some_of_nl_some hs hnl2⟩
        | none =>
          rw [parse_some_of_nl_none hs hnl2]
          rcases parse_date_fallback_shape today (stripQuotes s0) with ⟨d, hd⟩ | hd
          · exact Or.inl ⟨d, hd⟩
          · exact Or.inr ⟨s0, rfl, hs, hd⟩
  refine ⟨?_, ?_, ?_⟩
  · rcases hmaster with ⟨d, hd⟩ | ⟨s0, -, -, hd⟩ <;> rw [hd] <;> exact isIso_fmtDate _
  · rintro (h | h) <;> subst h
    · rfl
    · simp [parse_date_to_iso]
  · intro w hw
    rcases hmaster with ⟨d, hd⟩ | ⟨s0, hraw, hs, hd⟩
    · rw [hd] at hw
      simp at hw
    · rw [hd] at hw ⊢
      simp only [Option.some.injEq] at hw
      exact ⟨rfl, s0, hraw, hw.symm⟩

/-- C1 witness at concrete inputs: an unparseable string yields a
syntactically valid date, and an absent date yields today's date. -/
theorem parse_date_to_iso_never_fails_witness :
    isIsoDateString (parse_date_to_iso noNL ⟨2025, 1, 2⟩
      (some "garbage not a date".toList)).out = true ∧
    parse_date_to_iso noNL ⟨2025, 1, 2⟩ none = ⟨fmtDate ⟨2025, 1, 2⟩, none⟩ :=
  ⟨(parse_date_to_iso_never_fails noNL ⟨2025, 1, 2⟩
      (some "garbage not a date".toList)).1,
   (parse_date_to_iso_never_fails noNL ⟨2025, 1, 2⟩ none).2.1 (Or.inl rfl)⟩

/-! ### Output paths (`unique_output_path`)

The filesystem state probed by `os.path.exists` is modelled as the finite
listing `fs` of existing paths; the unbounded `while True` counter loop is
run with fuel `fs.length + 1`, which theorem `uniqueLoop_spec` (pigeonhole)
shows is never exhausted. -/

/-- Decimal rendering of `counter` (Python `f"{counter}"`). -/
def natCharsAux : Nat → Nat → List Char
  | 0, n => [digitChar n]
  | fuel + 1, n =>
    if n < 10 then [digitChar n]
    else natCharsAux fuel (n / 10) ++ [digitChar (n % 10)]

def natChars (n : Nat) : List Char := natCharsAux n n

/-- Decimal reading, a left inverse of `natChars`. -/
def decChars (l : List Char) : Nat := l.foldl (fun a c => 10 * a + digitVal c) 0

/-- `os.path.join` on POSIX for the two-argument case. -/
def pyJoin (a b : List Char) : List Char :=
  if b.head? = some '/' then b
  else if a = [] then a ++ b
  else if a.getLast? = some '/' then a ++ b
  else a ++ '/' :: b

/-- Index of the last occurrence of `c` (Python `str.rfind`, `none` for -1). -/
def lastIndexOf (c : Char) : List Char → Option Nat
  | [] => none
  | a :: t =>
    match lastIndexOf c t with
    | some i => some (i + 1)
    | none => if a = c then some 0 else none

/-- `os.path.splitext`: split at the last dot after the last separator,
unless every character between them and the dot is itself a dot (hidden
files like `".bashrc"` keep their name whole). -/
def splitext (p : List Char) : List Char × List Char :=
  match lastIndexOf '.' p with
  | none => (p, [])
  | some di =>
    match lastIndexOf '/' p with
    | some j =>
      if j + 1 ≤ di ∧ ((p.drop (j + 1)).take (di - (j + 1))).any (· ≠ '.') then
        (p.take di, p.drop di)
      else (p, [])
    | none =>
      if (p.take di).any (· ≠ '.') then (p.take di, p.drop di) else (p, [])

/-- `os.path.exists` against the modelled directory listing. -/
def pexists (fs : List (List Char)) (p : List Char) : Bool := decide (p ∈ fs)

/-- The path probed at counter value `k`:
`os.path.join(base_dir, f"{name}-{k}{ext}")`. -/
def probeName (base_dir name ext : List Char) (k : Nat) : List Char :=
  pyJoin base_dir (name ++ '-' :: natChars k ++ ext)

/-- The `while True` probing loop of `unique_output_path`, with fuel. -/
def uniqueLoop (fs : List (List Char)) (base_dir name ext : List Char) :
    Nat → Nat → Option (List Char)
  | _, 0 => none
  | counter, fuel + 1 =>
    if pexists fs (probeName base_dir name ext counter) then
      uniqueLoop fs base_dir name ext (counter + 1) fuel
    else some (probeName base_dir name ext counter)

/-- Embedding of `unique_output_path`. -/
def unique_output_path (fs : List (List Char)) (base_dir base_name : List Char) :
    Option (List Char) :=
  if pexists fs (pyJoin base_dir base_name) then
    uniqueLoop fs base_dir (splitext base_name).1 (splitext base_name).2 1
      (fs.length + 1)
  else some (pyJoin base_dir base_name)

example : splitext "2020-01-01-post.html".toList =
    ("2020-01-01-post".toList, ".html".toList) := by decide
example : splitext ".bashrc".toList = (".bashrc".toList, []) := by decide
example : splitext "a.b.c".toList = ("a.b".toList, ".c".toList) := by decide
example : unique_output_path [] "html_posts".toList "2020-01-01-post.html".toList =
    some "html_posts/2020-01-01-post.html".toList := by decide
example : unique_output_path ["html_posts/2020-01-01-post.html".toList]
    "html_posts".toList "2020-01-01-post.html".toList =
    some "html_posts/2020-01-01-post-1.html".toList := by decide
example : unique_output_path ["html_posts/2020-01-01-post.html".toList,
    "html_posts/2020-01-01-post-1.html".toList]
    "html_posts".toList "2020-01-01-post.html".toList =
    some "html_posts/2020-01-01-post-2.html".toList := by decide

theorem decChars_append_digit (l : List Char) (c : Char) :
    decChars (l ++ [c]) = 10 * decChars l + digitVal c := by
  unfold decChars
  rw [List.foldl_append]
  rfl

theorem decChars_natCharsAux : ∀ fuel n, n ≤ fuel → decChars (natCharsAux fuel n) = n := by
  intro fuel
  induction fuel with
  | zero =>
    intro n hn
    have : n = 0 := by omega
    subst this
    rfl
  | succ fuel ih =>
    intro n hn
    rw [natCharsAux]
    by_cases h10 : n < 10
    · rw [if_pos h10]
      unfold decChars
      simp only [List.foldl_cons, List.foldl_nil, digitVal_digitChar]
      omega
    · rw [if_neg h10, decChars_append_digit, ih (n / 10) (by omega),
        digitVal_digitChar]
      omega

theorem decChars_natChars (n : Nat) : decChars (natChars n) = n :=
  decChars_natCharsAux n n le_rfl

theorem natChars_inj {a b : Nat} (h : natChars a = natChars b) : a = b := by
  have h2 := congrArg decChars h
  rwa [decChars_natChars, decChars_natChars] at h2

theorem nameTail_inj {name ext : List Char} {j k : Nat}
    (h : name ++ '-' :: natChars j ++ ext = name ++ '-' :: natChars k ++ ext) :
    j = k := by
  have hlen : (natChars j).length = (natChars k).length := by
    have h0 := congrArg List.length h
    simp only [List.length_append, List.length_cons] at h0
    omega
  have h2 := (List.append_inj h (by simp [hlen])).1
  have h3 := List.append_cancel_left h2
  injection h3 with _ h4
  exact natChars_inj h4

theorem probeName_inj (base_dir name ext : List Char) {j k : Nat}
    (h : probeName base_dir name ext j = probeName base_dir name ext k) : j = k := by
  have hhead : (name ++ '-' :: natChars j ++ ext).head? =
      (name ++ '-' :: natChars k ++ ext).head? := by
    cases name <;> rfl
  unfold probeName pyJoin at h
  rw [hhead] at h
  by_cases h1 : (name ++ '-' :: natChars k ++ ext).head? = some '/'
  · rw [if_pos h1, if_pos h1] at h
    exact nameTail_inj h
  · rw [if_neg h1, if_neg h1] at h
    by_cases h2 : base_dir = []
    · rw [if_pos h2, if_pos h2] at h
      exact nameTail_inj (List.append_cancel_left h)
    · rw [if_neg h2, if_neg h2] at h
      by_cases h3 : base_dir.getLast? = some '/'
      · rw [if_pos h3, if_pos h3] at h
        exact nameTail_inj (List.append_cancel_left h)
      · rw [if_neg h3, if_neg h3] at h
        have h4 : '/' :: (name ++ '-' :: natChars j ++ ext) =
            '/' :: (name ++ '-' :: natChars k ++ ext) := List.append_cancel_left h
        injection h4 with _ h5
        exact nameTail_inj h5

theorem uniqueLoop_spec (fs : List (List Char)) (base_dir name ext : List Char) :
    ∀ fuel counter,
      (∃ k, counter ≤ k ∧ k < counter + fuel ∧
        pexists fs (probeName base_dir name ext k) = false) →
      ∃ k, uniqueLoop fs base_dir name ext counter fuel =
          some (probeName base_dir name ext k) ∧
        counter ≤ k ∧ pexists fs (probeName base_dir name ext k) = false ∧
        ∀ j, counter ≤ j → j < k → pexists fs (probeName base_dir name ext j) = true := by
  intro fuel
  induction fuel with
  | zero =>
    rintro counter ⟨k, h1, h2, -⟩
    omega
  | succ fuel ih =>
    rintro counter ⟨k, h1, h2, h3⟩
    by_cases hc : pexists fs (probeName base_dir name ext counter) = true
    · have hkc : k ≠ counter := by
        intro he
        rw [he, hc] at h3
        cases h3
      obtain ⟨k2, hk1, hk2, hk3, hk4⟩ :=
        ih (counter + 1) ⟨k, by omega, by omega, h3⟩
      refine ⟨k2, ?_, by omega, hk3, ?_⟩
      · rw [uniqueLoop, if_pos hc]
        exact hk1
      · intro j hj1 hj2
        rcases Nat.eq_or_lt_of_le hj1 with he | hlt
        · rw [← he]
          exact hc
        · exact hk4 j hlt hj2
    · have hc2 : pexists fs (probeName base_dir name ext counter) = false := by
        rcases hb : pexists fs (probeName base_dir name ext counter) with _ | _
        · rfl
        · exact absurd hb hc
      refine ⟨counter, ?_, le_rfl, hc2, fun j hj1 hj2 => by omega⟩
      rw [uniqueLoop, if_neg hc]

theorem exists_free_probe (fs : List (List Char)) (base_dir name ext : List Char) :
    ∃ k, 1 ≤ k ∧ k < 1 + (fs.length + 1) ∧
      pexists fs (probeName base_dir name ext k) = false := by
  by_contra hcon
  push_neg at hcon
  have hall : ∀ k, 1 ≤ k → k < fs.length + 2 →
      probeName base_dir name ext k ∈ fs := by
    intro k hk1 hk2
    have := hcon k hk1 (by omega)
    have h2 : pexists fs (probeName base_dir name ext k) = true := by
      rcases hb : pexists fs (probeName base_dir name ext k) with _ | _
      · exact absurd hb this
      · rfl
    exact of_decide_eq_true h2
  have hsub : ((List.range' 1 (fs.length + 1)).map (probeName base_dir name ext)) ⊆ fs := by
    intro x hx
    obtain ⟨k, hk, rfl⟩ := List.mem_map.mp hx
    have hkr := List.mem_range'_1.mp hk
    exact hall k hkr.1 (by omega)
  have hnodup : ((List.range' 1 (fs.length + 1)).map (probeName base_dir name ext)).Nodup :=
    (List.nodup_range' _ _).map (fun a b hab => probeName_inj base_dir name ext hab)
  have hper := List.subperm_of_subset hnodup hsub
  have hlen := hper.length_le
  simp only [List.length_map, List.length_range'] at hlen
  omega

/-- C9: whenever the base name collides, the probing loop terminates within
the fuel bound (pigeonhole: over any `fs.length + 1` distinct candidate names,
one is absent from the finite directory listing) and returns the candidate
`stem-k.ext` with the smallest counter `k ≥ 1` that does not exist. -/
theorem unique_output_path_terminates (fs : List (List Char))
    (base_dir base_name : List Char)
    (hb : pexists fs (pyJoin base_dir base_name) = true) :
    ∃ k, 1 ≤ k ∧
      unique_output_path fs base_dir base_name =
        some (probeName base_dir (splitext base_name).1 (splitext base_name).2 k) ∧
      pexists fs (probeName base_dir (splitext base_name).1 (splitext base_name).2 k)
        = false ∧
      ∀ j, 1 ≤ j → j < k →
        pexists fs (probeName base_dir (splitext base_name).1 (splitext base_name).2 j)
          = true := by
  obtain ⟨k, h1, h2, h3, h4⟩ := uniqueLoop_spec fs base_dir
    (splitext base_name).1 (splitext base_name).2 (fs.length + 1) 1
    (exists_free_probe fs base_dir (splitext base_name).1 (splitext base_name).2)
  refine ⟨k, h2, ?_, h3, fun j hj1 hj2 => h4 j hj1 hj2⟩
  rw [unique_output_path, if_pos hb]
  exact h1

/-- C9 witness: with exactly the base path present, the loop stops at the
first counter. -/
theorem unique_output_path_terminates_witness :
    ∃ k, 1 ≤ k ∧
      unique_output_path ["html_posts/2020-01-01-post.html".toList]
          "html_posts".toList "2020-01-01-post.html".toList =
        some (probeName "html_posts".toList
          (splitext "2020-01-01-post.html".toList).1
          (splitext "2020-01-01-post.html".toList).2 k) ∧
      pexists ["html_posts/2020-01-01-post.html".toList]
        (probeName "html_posts".toList
          (splitext "2020-01-01-post.html".toList).1
          (splitext "2020-01-01-post.html".toList).2 k) = false ∧
      ∀ j, 1 ≤ j → j < k →
        pexists ["html_posts/2020-01-01-post.html".toList]
          (probeName "html_posts".toList
            (splitext "2020-01-01-post.html".toList).1
            (splitext "2020-01-01-post.html".toList).2 j) = true :=
  unique_output_path_terminates ["html_posts/2020-01-01-post.html".toList]
    "html_posts".toList "2020-01-01-post.html".toList (by decide)

/-- C2: `resolve` returns `outputDir/baseFileName` when that path does not
exist, and otherwise the first of `stem-1.ext`, `stem-2.ext`, ... (smallest
counter) that does not exist; in both cases the returned path does not exist
at call time, which is what makes sequential same-run writes collision-free. -/
theorem unique_output_path_fresh (fs : List (List Char))
    (base_dir base_name : List Char) :
    ∃ p, unique_output_path fs base_dir base_name = some p ∧
      pexists fs p = false ∧
      (pexists fs (pyJoin base_dir base_name) = false → p = pyJoin base_dir base_name) ∧
      (pexists fs (pyJoin base_dir base_name) = true →
        ∃ k, 1 ≤ k ∧
          p = probeName base_dir (splitext base_name).1 (splitext base_name).2 k ∧
          ∀ j, 1 ≤ j → j < k →
            pexists fs
              (probeName base_dir (splitext base_name).1 (splitext base_name).2 j)
              = true) := by
  by_cases hb : pexists fs (pyJoin base_dir base_name) = true
  · obtain ⟨k, h1, h2, h3, h4⟩ := unique_output_path_terminates fs base_dir base_name hb
    exact ⟨_, h2, h3, fun hco => absurd hb (by rw [hco]; exact Bool.false_ne_true),
      fun _ => ⟨k, h1, rfl, h4⟩⟩
  · have hb2 : pexists fs (pyJoin base_dir base_name) = false := by
      rcases hx : pexists fs (pyJoin base_dir base_name) with _ | _
      · rfl
      · exact absurd hx hb
    refine ⟨pyJoin base_dir base_name, ?_, hb2, fun _ => rfl,
      fun hco => absurd hco hb⟩
    rw [unique_output_path, if_neg hb]

/-- C2 witness: an empty directory keeps the base name; the returned path is
absent from the listing. -/
theorem unique_output_path_fresh_witness :
    unique_output_path [] "html_posts".toList "2020-01-01-post.html".toList =
      some "html_posts/2020-01-01-post.html".toList ∧
    pexists [] "html_posts/2020-01-01-post.html".toList = false := by
  obtain ⟨p, h1, h2, h3, -⟩ :=
    unique_output_path_fresh [] "html_posts".toList "2020-01-01-post.html".toList
  have hp : p = "html_posts/2020-01-01-post.html".toList := by
    rw [h3 (by decide)]
    decide
  rw [hp] at h1 h2
  exact ⟨h1, h2⟩

/-! ### Frontmatter removal (`re.sub(r'^---[\s\S]*?---\s*', '', content, flags=re.MULTILINE)`)

With `re.MULTILINE`, `^` matches at the start of *every* line and `re.sub`
replaces *every* non-overlapping match, so any line-start `---` pair is
removed, not only a leading one.  The scanner below walks the string carrying
the is-at-line-start flag; a match consumes at least six characters, so fuel
`length + 1` never runs out. -/

/-- Rest of the input after the first `---` (the non-greedy `[\s\S]*?---`). -/
def findTripleDash : List Char → Option (List Char)
  | [] => none
  | c :: t =>
    if (c :: t).take 3 = ['-', '-', '-'] then some (t.drop 2) else findTripleDash t

/-- Greedy `\s*`, also reporting whether the last consumed character was a
newline (which decides whether the position after the match starts a line). -/
def dropSpacesNL : List Char → Bool → List Char × Bool
  | [], last => ([], last)
  | c :: r, last => if isPySpace c then dropSpacesNL r (c = '\n') else (c :: r, last)

/-- Match `---[\s\S]*?---\s*` at the head of `s`: the rest of the input after
the match, and whether that position starts a line. -/
def matchFMBlock (s : List Char) : Option (List Char × Bool) :=
  if s.take 3 = ['-', '-', '-'] then
    match findTripleDash (s.drop 3) with
    | some u => some (dropSpacesNL u false)
    | none => none
  else none

/-- The `re.sub` scan: at every line-start position try the block pattern;
on a match drop it and continue after it, otherwise emit one character. -/
def removeFMGo : Nat → List Char → Bool → List Char
  | 0, s, _ => s
  | fuel + 1, s, atLS =>
    match s with
    | [] => []
    | c :: rest =>
      match matchFMBlock (c :: rest) with
      | some ru =>
        if atLS then removeFMGo fuel ru.1 ru.2
        else c :: removeFMGo fuel rest (c = '\n')
      | none => c :: removeFMGo fuel rest (c = '\n')

/-- Embedding of line 143 of `md2html.py`: the frontmatter-stripping
`re.sub` applied to the whole file content. -/
def remove_yaml_frontmatter (content : List Char) : List Char :=
  removeFMGo (content.length + 1) content true

example : remove_yaml_frontmatter "---\ntitle: \"Hi\"\n---\n# Hello".toList =
    "# Hello".toList := by decide
example : remove_yaml_frontmatter "# Hello\nworld".toList =
    "# Hello\nworld".toList := by decide
example : remove_yaml_frontmatter "---\na: b\n---\nX\n---\nmid\n---\nY".toList =
    "X\nY".toList := by decide

/-- C7 counterexample: in
`"---\na: b\n---\nX\n---\nmid\n---\nY"` the text `mid` sits between a later
line-start `---` delimiter pair; the `re.sub` removes that pair and the text
between them (the result is `"X\nY"`), contradicting the claim that only a
single leading block is removed and later delimited text is preserved. -/
theorem remove_yaml_frontmatter_counterexample :
    remove_yaml_frontmatter "---\na: b\n---\nX\n---\nmid\n---\nY".toList =
      "X\nY".toList ∧
    'm' ∈ "---\na: b\n---\nX\n---\nmid\n---\nY".toList ∧
    'm' ∉ remove_yaml_frontmatter "---\na: b\n---\nX\n---\nmid\n---\nY".toList := by
  refine ⟨by decide, by decide, by decide⟩

/-- Whether the position after `l` starts a line (`f` is the answer for the
empty string). -/
def lastNL (l : List Char) (f : Bool) : Bool :=
  match l.getLast? with
  | some c => decide (c = '\n')
  | none => f

theorem lastNL_cons (c : Char) (t : List Char) (f : Bool) :
    lastNL (c :: t) f = lastNL t (decide (c = '\n')) := by
  cases t with
  | nil => rfl
  | cons a s => rfl

theorem matchFMBlock_none {c : Char} (hc : c ≠ '-') (rest : List Char) :
    matchFMBlock (c :: rest) = none := by
  unfold matchFMBlock
  rw [if_neg]
  intro hcc
  rw [List.take_succ_cons] at hcc
  injection hcc with h1 _
  exact hc h1

theorem removeFMGo_no_dash : ∀ (fuel : Nat) (l : List Char) (f : Bool),
    (∀ c ∈ l, c ≠ '-') → removeFMGo fuel l f = l := by
  intro fuel
  induction fuel with
  | zero => intro l f _; rfl
  | succ fuel ih =>
    intro l f hl
    cases l with
    | nil => rfl
    | cons c rest =>
      simp only [removeFMGo, matchFMBlock_none (hl c (List.mem_cons_self c rest)) rest]
      rw [ih rest _ (fun a ha => hl a (List.mem_cons_of_mem c ha))]

theorem removeFMGo_prefix_no_dash : ∀ (pre : List Char) (fuel : Nat)
    (suf : List Char) (f : Bool), (∀ c ∈ pre, c ≠ '-') →
    removeFMGo fuel (pre ++ suf) f =
      pre ++ removeFMGo (fuel - pre.length) suf (lastNL pre f) := by
  intro pre
  induction pre with
  | nil => intro fuel suf f _; simp [lastNL]
  | cons c pre2 ih =>
    intro fuel suf f hp
    cases fuel with
    | zero => simp [removeFMGo]
    | succ fuel =>
      rw [List.cons_append]
      simp only [removeFMGo,
        matchFMBlock_none (hp c (List.mem_cons_self c pre2)) (pre2 ++ suf)]
      rw [ih fuel suf _ (fun a ha => hp a (List.mem_cons_of_mem c ha))]
      rw [List.length_cons, Nat.succ_sub_succ, lastNL_cons]
      rfl

theorem findTripleDash_skip : ∀ (h : List Char) (rest : List Char),
    (∀ c ∈ h, c ≠ '-') →
    findTripleDash (h ++ '-' :: '-' :: '-' :: rest) = some rest := by
  intro h
  induction h with
  | nil => intro rest _; rfl
  | cons a h2 ih =>
    intro rest hp
    rw [List.cons_append, findTripleDash]
    rw [if_neg]
    · exact ih rest (fun c hc => hp c (List.mem_cons_of_mem a hc))
    · intro hcc
      rw [List.take_succ_cons] at hcc
      injection hcc with h1 _
      exact hp a (List.mem_cons_self a h2) h1

theorem dropSpacesNL_nl (l : List Char) (b : Bool) :
    dropSpacesNL ('\n' :: l) b = dropSpacesNL l true := by
  rw [dropSpacesNL, if_pos (by decide)]
  norm_num

theorem dropSpacesNL_stop {y : List Char}
    (hy : ∀ c, y.head? = some c → isPySpace c = false) (b : Bool) :
    dropSpacesNL y b = (y, b) := by
  cases y with
  | nil => rfl
  | cons c t => rw [dropSpacesNL, if_neg (by rw [hy c rfl]; exact Bool.false_ne_true)]

theorem matchFMBlock_found (h rest : List Char) (hh : ∀ c ∈ h, c ≠ '-') :
    matchFMBlock ('-' :: '-' :: '-' :: (h ++ ('-' :: '-' :: '-' :: rest))) =
      some (dropSpacesNL rest false) := by
  unfold matchFMBlock
  have ht : List.take 3 ('-' :: '-' :: '-' :: (h ++ '-' :: '-' :: '-' :: rest)) =
      ['-', '-', '-'] := rfl
  rw [if_pos ht]
  rw [show List.drop 3 ('-' :: '-' :: '-' :: (h ++ '-' :: '-' :: '-' :: rest))
      = h ++ ('-' :: '-' :: '-' :: rest) from rfl]
  rw [findTripleDash_skip h rest hh]

/-- C7 amended: the `re.sub` removes *every* block that starts at the
beginning of a line holding `---` and runs to the next `---` plus trailing
whitespace, not only a leading one: here the leading frontmatter `h` is
removed, and the later line-start pair with the text `m` between its
delimiters is removed as well, leaving `x ++ "\n" ++ y`. -/
theorem remove_yaml_frontmatter_blocks (h m x y : List Char)
    (hh : ∀ c ∈ h, c ≠ '-') (hm : ∀ c ∈ m, c ≠ '-')
    (hx : ∀ c ∈ x, c ≠ '-') (hy : ∀ c ∈ y, c ≠ '-')
    (hxne : x ≠ [])
    (hxh : ∀ c, x.head? = some c → isPySpace c = false)
    (hyh : ∀ c, y.head? = some c → isPySpace c = false) :
    remove_yaml_frontmatter
      ('-' :: '-' :: '-' :: (h ++ ('-' :: '-' :: '-' ::
        ('\n' :: (x ++ ('\n' :: ('-' :: '-' :: '-' ::
          (m ++ ('-' :: '-' :: '-' :: ('\n' :: y)))))))))) =
      x ++ '\n' :: y := by
  have hxhead : ∀ c, (x ++ ('\n' :: ('-' :: '-' :: '-' ::
      (m ++ ('-' :: '-' :: '-' :: ('\n' :: y)))))).head? = some c →
      isPySpace c = false := by
    intro c hc
    cases x with
    | nil => exact absurd rfl hxne
    | cons x0 t =>
      rw [List.cons_append, List.head?_cons] at hc
      injection hc with hc
      subst hc
      exact hxh x0 rfl
  have main : ∀ fuel, x.length + 3 ≤ fuel →
      removeFMGo fuel ('-' :: '-' :: '-' :: (h ++ ('-' :: '-' :: '-' ::
        ('\n' :: (x ++ ('\n' :: ('-' :: '-' :: '-' ::
          (m ++ ('-' :: '-' :: '-' :: ('\n' :: y)))))))))) true =
        x ++ '\n' :: y := by
    intro fuel hfuel
    obtain ⟨F, rfl⟩ : ∃ F, fuel = F + 1 := ⟨fuel - 1, by omega⟩
    have hmb1 := matchFMBlock_found h ('\n' :: (x ++ ('\n' :: ('-' :: '-' :: '-' ::
      (m ++ ('-' :: '-' :: '-' :: ('\n' :: y))))))) hh
    have hpair : dropSpacesNL ('\n' :: (x ++ ('\n' :: ('-' :: '-' :: '-' ::
        (m ++ ('-' :: '-' :: '-' :: ('\n' :: y))))))) false =
        (x ++ ('\n' :: ('-' :: '-' :: '-' ::
          (m ++ ('-' :: '-' :: '-' :: ('\n' :: y))))), true) := by
      rw [dropSpacesNL_nl]
      exact dropSpacesNL_stop hxhead true
    simp only [removeFMGo]
    rw [hmb1, hpair]
    show removeFMGo F (x ++ ('\n' :: ('-' :: '-' :: '-' ::
      (m ++ ('-' :: '-' :: '-' :: ('\n' :: y)))))) true = x ++ '\n' :: y
    rw [removeFMGo_prefix_no_dash x F _ true hx]
    congr 1
    obtain ⟨G, hG⟩ : ∃ G, F - x.length = G + 2 :=
      ⟨F - x.length - 2, by omega⟩
    rw [hG]
    simp only [removeFMGo,
      matchFMBlock_none (show ('\n' : Char) ≠ '-' by decide)]
    congr 1
    show removeFMGo (G + 1) ('-' :: '-' :: '-' ::
      (m ++ ('-' :: '-' :: '-' :: ('\n' :: y)))) true = y
    have hmb2 := matchFMBlock_found m ('\n' :: y) hm
    have hpair2 : dropSpacesNL ('\n' :: y) false = (y, true) := by
      rw [dropSpacesNL_nl]
      exact dropSpacesNL_stop hyh true
    simp only [removeFMGo]
    rw [hmb2, hpair2]
    show removeFMGo G y true = y
    exact removeFMGo_no_dash G y true hy
  apply main
  simp only [List.length_cons, List.length_append]
  omega

/-- C7 amended witness at concrete header, body and later-pair text. -/
theorem remove_yaml_frontmatter_blocks_witness :
    remove_yaml_frontmatter ('-' :: '-' :: '-' :: ("\ntitle: q\n".toList ++
      ('-' :: '-' :: '-' :: ('\n' :: ("X".toList ++ ('\n' :: ('-' :: '-' :: '-' ::
        ("\nmid\n".toList ++ ('-' :: '-' :: '-' :: ('\n' :: "Y".toList)))))))))) =
      "X".toList ++ '\n' :: "Y".toList :=
  remove_yaml_frontmatter_blocks "\ntitle: q\n".toList "\nmid\n".toList
    "X".toList "Y".toList (by decide) (by decide) (by decide) (by decide)
    (by decide)
    (by intro c hc; injection hc with h2; subst h2; decide)
    (by intro c hc; injection hc with h2; subst h2; decide)

/-! ### Tags extraction (`re.search(r'^tags:\s*(\[[^\]]*\])', content, re.MULTILINE)`)

`[^\]]*` matches any character except `]` - including newlines - so the
captured bracket literal may span lines. -/

/-- `[^\]]*\]`: the characters before the first `]`, failing without one. -/
def takeUntilRB : List Char → Option (List Char)
  | [] => none
  | c :: t => if c = ']' then some [] else (takeUntilRB t).map (c :: ·)

/-- Match `tags:\s*(\[[^\]]*\])` at the head of `s`, returning group 1. -/
def matchTagsAt (s : List Char) : Option (List Char) :=
  if s.take 5 = "tags:".toList then
    match (s.drop 5).dropWhile isPySpace with
    | '[' :: u =>
      match takeUntilRB u with
      | some inner => some ('[' :: inner ++ [']'])
      | none => none
    | _ => none
  else none

/-- `re.search` with the `^`-anchored pattern: try each line-start position
left to right. -/
def tagsSearchGo : List Char → Bool → Option (List Char)
  | [], _ => none
  | c :: r, atLS =>
    if atLS then
      match matchTagsAt (c :: r) with
      | some lit => some lit
      | none => tagsSearchGo r (c = '\n')
    else tagsSearchGo r (c = '\n')

/-- The tags part of `extract_frontmatter`:
`tags_match.group(1).strip() if tags_match else "[]"`. -/
def extract_frontmatter_tags (content : List Char) : List Char :=
  match tagsSearchGo content true with
  | some lit => pyStrip lit
  | none => "[]".toList

example : extract_frontmatter_tags "title: x\ntags: [a, b]\nbody".toList =
    "[a, b]".toList := by decide
example : extract_frontmatter_tags "x\ntags: [a,\n b]\nrest".toList =
    "[a,\n b]".toList := by decide
example : extract_frontmatter_tags "no tags here".toList = "[]".toList := by decide
example : extract_frontmatter_tags "tags: oops".toList = "[]".toList := by decide

/-- No line-start position within the scanned text begins with `t` (so no
`tags:` match can start there, not even one straddling into what follows). -/
def noLineStartT : List Char → Bool → Bool
  | [], _ => true
  | c :: r, atLS => (!(atLS && c = 't')) && noLineStartT r (c = '\n')

theorem matchTagsAt_none_of_head {c : Char} (hc : c ≠ 't') (rest : List Char) :
    matchTagsAt (c :: rest) = none := by
  unfold matchTagsAt
  rw [if_neg]
  intro hcc
  rw [List.take_succ_cons] at hcc
  injection hcc with h1 _
  exact hc h1

theorem tagsSearchGo_skip : ∀ (pre : List Char) (suf : List Char) (f : Bool),
    noLineStartT pre f = true →
    tagsSearchGo (pre ++ suf) f = tagsSearchGo suf (lastNL pre f) := by
  intro pre
  induction pre with
  | nil => intro suf f _; simp [lastNL]
  | cons c pre2 ih =>
    intro suf f hp
    rw [noLineStartT, Bool.and_eq_true, Bool.not_eq_true', Bool.and_eq_false_iff] at hp
    rw [List.cons_append, tagsSearchGo]
    rcases hf : f with _ | _
    · simp only [Bool.false_eq_true, if_false]
      rw [ih suf _ hp.2, lastNL_cons]
    · simp only [if_true]
      have hct : c ≠ 't' := by
        rcases hp.1 with h | h
        · rw [hf] at h; cases h
        · simpa using h
      rw [matchTagsAt_none_of_head hct]
      rw [ih suf _ hp.2, lastNL_cons]

theorem takeUntilRB_before : ∀ (inner rest : List Char), ']' ∉ inner →
    takeUntilRB (inner ++ ']' :: rest) = some inner := by
  intro inner
  induction inner with
  | nil => intro rest _; simp [takeUntilRB]
  | cons c t ih =>
    intro rest hrb
    rw [List.cons_append, takeUntilRB,
      if_neg (by simpa using (List.ne_of_not_mem_cons hrb).symm),
      ih rest (fun hmem => hrb (List.mem_cons_of_mem c hmem))]
    rfl

theorem dropWhile_append_all {p : Char → Bool} : ∀ (sp l : List Char),
    (∀ c ∈ sp, p c = true) → (sp ++ l).dropWhile p = l.dropWhile p := by
  intro sp
  induction sp with
  | nil => intro l _; rfl
  | cons c t ih =>
    intro l hsp
    rw [List.cons_append, List.dropWhile_cons,
      if_pos (hsp c (List.mem_cons_self c t))]
    exact ih l (fun a ha => hsp a (List.mem_cons_of_mem c ha))

theorem matchTagsAt_found (sp inner rest : List Char)
    (hsp : ∀ c ∈ sp, isPySpace c = true) (hrb : ']' ∉ inner) :
    matchTagsAt ('t' :: 'a' :: 'g' :: 's' :: ':' ::
      (sp ++ ('[' :: (inner ++ ']' :: rest)))) = some ('[' :: inner ++ [']']) := by
  unfold matchTagsAt
  have ht : List.take 5 ('t' :: 'a' :: 'g' :: 's' :: ':' ::
      (sp ++ ('[' :: (inner ++ ']' :: rest)))) = "tags:".toList := rfl
  rw [if_pos ht]
  rw [show List.drop 5 ('t' :: 'a' :: 'g' :: 's' :: ':' ::
      (sp ++ ('[' :: (inner ++ ']' :: rest)))) =
      sp ++ ('[' :: (inner ++ ']' :: rest)) from rfl]
  rw [dropWhile_append_all sp _ hsp, List.dropWhile_cons,
    if_neg (by decide)]
  show (match takeUntilRB (inner ++ ']' :: rest) with
    | some inn => some ('[' :: inn ++ [']'])
    | none => none) = some ('[' :: inner ++ [']'])
  rw [takeUntilRB_before inner rest hrb]

/-- C10: the tags capture spans lines: for text containing a line beginning
`tags:` followed by `[` whose first `]` appears only after intervening
newlines, `extract` returns a bracket literal containing those newlines.
`pre` is the text before that line (ending at a line break, with no line
starting in `t`, so the match above is the leftmost one). -/
theorem extract_frontmatter_tags_multiline (pre sp inner rest : List Char)
    (hpre : noLineStartT pre true = true)
    (hls : lastNL pre true = true)
    (hsp : ∀ c ∈ sp, isPySpace c = true)
    (hrb : ']' ∉ inner)
    (hnl : '\n' ∈ inner) :
    extract_frontmatter_tags (pre ++ ('t' :: 'a' :: 'g' :: 's' :: ':' ::
        (sp ++ ('[' :: (inner ++ ']' :: rest))))) = '[' :: inner ++ [']'] ∧
    '\n' ∈ extract_frontmatter_tags (pre ++ ('t' :: 'a' :: 'g' :: 's' :: ':' ::
        (sp ++ ('[' :: (inner ++ ']' :: rest))))) := by
  have hsearch : tagsSearchGo (pre ++ ('t' :: 'a' :: 'g' :: 's' :: ':' ::
      (sp ++ ('[' :: (inner ++ ']' :: rest))))) true =
      some ('[' :: inner ++ [']']) := by
    rw [tagsSearchGo_skip pre _ true hpre, hls, tagsSearchGo, if_pos rfl,
      matchTagsAt_found sp inner rest hsp hrb]
  have hstrip : pyStrip ('[' :: inner ++ [']']) = '[' :: inner ++ [']'] := by
    apply pyStripChar_eq_self
    · intro c hc
      have : c = '[' := by
        rw [show ('[' :: inner ++ [']']).head? = some '[' from rfl] at hc
        injection hc with h2
        exact h2.symm
      rw [this]
      decide
    · intro c hc
      rw [show ('[' :: inner ++ [']'] : List Char) = ('[' :: inner) ++ [']'] from rfl,
        List.getLast?_concat] at hc
      injection hc with h2
      rw [← h2]
      decide
  unfold extract_frontmatter_tags
  rw [hsearch]
  show pyStrip ('[' :: inner ++ [']']) = '[' :: inner ++ [']'] ∧
    '\n' ∈ pyStrip ('[' :: inner ++ [']'])
  refine ⟨hstrip, ?_⟩
  rw [hstrip]
  exact List.mem_append.mpr (Or.inl (List.mem_cons_of_mem '[' hnl))

/-- C10 witness: a concrete two-line tags literal is captured whole. -/
theorem extract_frontmatter_tags_multiline_witness :
    extract_frontmatter_tags ("x\n".toList ++ ('t' :: 'a' :: 'g' :: 's' :: ':' ::
        (" ".toList ++ ('[' :: ("1,\n 2".toList ++ ']' :: "\nz".toList))))) =
      '[' :: "1,\n 2".toList ++ [']'] ∧
    '\n' ∈ extract_frontmatter_tags ("x\n".toList ++
      ('t' :: 'a' :: 'g' :: 's' :: ':' ::
        (" ".toList ++ ('[' :: ("1,\n 2".toList ++ ']' :: "\nz".toList))))) :=
  extract_frontmatter_tags_multiline "x\n".toList " ".toList "1,\n 2".toList
    "\nz".toList (by decide) (by decide) (by decide) (by decide) (by decide)
